import Mathlib

/-!
# DareBlopy binding layer (`src/sources/main.cpp`): shape resolution, `File`, `Archive`,
`FileSystem`

Shallow embedding of the pybind11 glue of the virtual file-system loader.

Conventions of the embedding

* `size_t` values are `Nat`, reduced modulo `2 ^ 64` wherever the C++ arithmetic can wrap.
* `ptrdiff_t` values are `Int` in `[-2 ^ 63, 2 ^ 63)`.
* A Python `int` is an unbounded `Int`; `py::cast<ptrdiff_t>` is the only way such a value
  enters C++ and it refuses values outside the `ptrdiff_t` range.
* A C++ exception or an undefined operation ends the function with `Except.error`.
* Loop counters (`int i`) are not bounded: tuples are shorter than `2 ^ 31` entries.
* A binding returns its Python result together with the trace of its lock and host
  operations, so that the discipline of the global interpreter lock can be read off.
* Types declared in `fsal.h` (`File`, `ArchiveReaderInterface`, `ZipReader`, `FileSystem`) are
  not part of the sources; what the bindings use of them is modelled from the specification.
-/

namespace DareBlopy

/-! ## Machine integers -/

/-- Number of values of a `size_t` (64-bit build). -/
def SIZE_T_MOD : Nat := 2 ^ 64

/-- Smallest `ptrdiff_t`. -/
def PTRDIFF_MIN : Int := -(2 ^ 63)

/-- Largest `ptrdiff_t`. -/
def PTRDIFF_MAX : Int := 2 ^ 63 - 1

/-- Conversion of a signed value to `size_t` (two's complement wrap), as performed by
`shape_.push_back(s)` and by `mul *= s`. -/
def to_size_t (s : Int) : Nat := (s % 2 ^ 64).toNat

/-- Conversion of an integer value to `ptrdiff_t` (two's complement wrap), as performed when a
`size_t` expression is stored in a `ptrdiff_t` variable. -/
def to_ptrdiff_t (n : Int) : Int := (n + 2 ^ 63) % 2 ^ 64 - 2 ^ 63

/-! ## `fix_shape` (main.cpp, lines 68-118) -/

/-- Ways in which `fix_shape` does not return. -/
inductive ShapeError where
  /-- The exception `IOError("Invalid shape ")`, line 86. -/
  | InvalidShape
  /-- The exception `IOError("Can't reshape")`, line 109. -/
  | CantReshape
  /-- The exception `py::cast_error` of `py::cast<ptrdiff_t>(shape[i])`, line 79. -/
  | CastError
  /-- The undefined operation `size % mul` with `mul == 0`, line 101. -/
  | DivisionByZero
  deriving DecidableEq, Repr

/-- The conversion `py::cast<ptrdiff_t>(shape[i])` of a Python integer: pybind11 loads the value
with `PyLong_AsLong` and throws `cast_error` when it does not fit. -/
def cast_ptrdiff_t (o : Int) : Except ShapeError Int :=
  if PTRDIFF_MIN ≤ o ∧ o ≤ PTRDIFF_MAX then .ok o else .error .CastError

/-- Local variables of `fix_shape` that live across loop iterations, together with the output
vector `shape_`. -/
structure Locals where
  has_minus : Bool
  mul : Nat
  minus_id : Int
  shape_ : List Nat
  deriving DecidableEq, Repr

/-- The loop `for (int i = 0; i < shape.size(); ++i)` of lines 77-98, started at index `i` on
the entries of the tuple that are still to be visited. -/
def fix_shape_loop : List Int → Nat → Locals → Except ShapeError Locals
  | [], _, st => .ok st
  | o :: rest, i, st =>
    match cast_ptrdiff_t o with
    | .error e => .error e
    | .ok s =>
      if s < 1 then
        if st.has_minus then
          .error .InvalidShape
        else
          fix_shape_loop rest (i + 1)
            { has_minus := true, mul := st.mul, minus_id := (i : Int),
              shape_ := st.shape_ ++ [to_size_t s] }
      else
        fix_shape_loop rest (i + 1)
          { has_minus := st.has_minus, mul := (st.mul * to_size_t s) % SIZE_T_MOD,
            minus_id := st.minus_id, shape_ := st.shape_ ++ [to_size_t s] }

/-- The call `shape_.clear()`. -/
def clear (_v : List Nat) : List Nat := []

/-- The function `fix_shape(_shape, size, shape_)`. `_shape` is `none` for Python `None` and
otherwise the tuple of Python integers; `shape_` is the previous content of the output vector;
the result is the content of the output vector on return. -/
def fix_shape (_shape : Option (List Int)) (size : Nat) (shape_ : List Nat) :
    Except ShapeError (List Nat) :=
  let shape_ := clear shape_
  match _shape with
  | some shape =>
    match fix_shape_loop shape 0
        { has_minus := false, mul := 1, minus_id := -1, shape_ := shape_ } with
    | .error e => .error e
    | .ok st =>
      if st.has_minus then
        if st.mul = 0 then
          .error .DivisionByZero
        else if size % st.mul = 0 then
          .ok (st.shape_.set st.minus_id.toNat (size / st.mul))
        else
          .error .CantReshape
      else
        .ok st.shape_
  | none => .ok (shape_ ++ [size])

/-! ## Vocabulary for statements about shape templates -/

/-- Every entry of the template is representable as a `ptrdiff_t`. -/
def InPtrdiffRange (t : List Int) : Prop := ∀ s ∈ t, PTRDIFF_MIN ≤ s ∧ s ≤ PTRDIFF_MAX

instance (t : List Int) : Decidable (InPtrdiffRange t) := by
  unfold InPtrdiffRange; infer_instance

/-- The template has a wildcard (an entry `< 1`) at index `i` and nowhere else. -/
def OneWildcardAt (t : List Int) (i : Nat) : Prop :=
  i < t.length ∧ t.getD i 1 < 1 ∧ ∀ s ∈ t.eraseIdx i, 1 ≤ s

instance (t : List Int) (i : Nat) : Decidable (OneWildcardAt t i) := by
  unfold OneWildcardAt; infer_instance

/-- Product of the entries of the template other than the one at index `i`, as a natural
number (the mathematical product, without wrap-around). -/
def fixed_prod (t : List Int) (i : Nat) : Nat := (t.eraseIdx i).prod.toNat

/-- Number of wildcard entries (value `< 1`) of a template. -/
def wildcard_count (t : List Int) : Nat := t.countP (fun s => decide (s < 1))

/-- Value of `mul` after the loop has multiplied it, modulo `2 ^ 64`, by the entries of `l`. -/
def mul_acc (m : Nat) (l : List Int) : Nat :=
  l.foldl (fun m s => (m * to_size_t s) % SIZE_T_MOD) m

/-- Two template entries are interchangeable when they are equal or are both wildcards. -/
def Interchangeable (a b : Int) : Prop := a = b ∨ (a < 1 ∧ b < 1)

/-- Two states of the loop of `fix_shape` at index `i` that can only differ in the value stored
at the position of the wildcard. -/
def LocalsAgree (i : Nat) (s1 s2 : Locals) : Prop :=
  s1.has_minus = s2.has_minus ∧ s1.mul = s2.mul ∧ s1.minus_id = s2.minus_id ∧
    s1.shape_.length = i ∧ s2.shape_.length = i ∧
    if s1.has_minus then
      s1.minus_id.toNat < i ∧
        ∀ v, s1.shape_.set s1.minus_id.toNat v = s2.shape_.set s1.minus_id.toNat v
    else s1.shape_ = s2.shape_

/-! ## Decoding into a numpy array (main.cpp, lines 121-141 and 236-262) -/

/-- Number of writable bytes behind `data.request().ptr` for `ndarray_uint8 data(shape)`: one
byte for each element of a C-contiguous array of the given shape. -/
def ndarray_uint8_nbytes (shape : List Nat) : Nat := shape.prod

/-- The destination handed to the reader: `capacity` writable bytes, into which the reader
stores `requested` bytes. -/
structure Destination where
  capacity : Nat
  requested : Nat
  deriving DecidableEq, Repr

/-- The function `read_as_numpy_ubyte(fp, _shape)` up to the call
`fp.Read((uint8_t*)ptr, size, &retSize)`, for a file with `fp.GetSize() = file_size`. -/
def read_as_numpy_ubyte (file_size : Nat) (_shape : Option (List Int)) :
    Except ShapeError Destination :=
  let size := file_size
  match fix_shape _shape size [] with
  | .error e => .error e
  | .ok shape => .ok { capacity := ndarray_uint8_nbytes shape, requested := size }

/-- The callback `alloc` of `Archive.open_as_numpy_ubyte`, which the archive calls with the
decompressed size `s` of the entry and into whose result it then stores `s` bytes. `shape` is
the content of the captured vector before the call. -/
def open_as_numpy_ubyte_alloc (_shape : Option (List Int)) (shape : List Nat) (s : Nat) :
    Except ShapeError Destination :=
  let size := s
  match fix_shape _shape size shape with
  | .error e => .error e
  | .ok shape => .ok { capacity := ndarray_uint8_nbytes shape, requested := size }

/-! ## `fsal::File` and the binding `File.read` (main.cpp, lines 297-320) -/

/-- Modelled from the spec: the handle `fsal::File` (declared in `fsal.h`, which is not part of
the sources). Section 3 describes it as a byte store with a mutable cursor that is either
resident in memory or streamed from a descriptor. -/
structure File where
  data : List UInt8
  cursor : Nat
  resident : Bool

/-- Modelled from the spec: results of file operations (section 3, `Status`). -/
inductive Status where
  | Ok
  | NotFound
  | IoError
  | InvalidArgument
  | AlreadyMounted
  deriving DecidableEq, Repr

/-- Modelled from the spec: origins of `Seek` (section 4.2). -/
inductive Origin where
  | Start
  | Current
  | End
  deriving DecidableEq, Repr

/-- Modelled from the spec: `Tell()` is the current cursor. -/
def File.Tell (self : File) : Nat := self.cursor

/-- Modelled from the spec: `GetSize()` is the total byte length of the data. -/
def File.GetSize (self : File) : Nat := self.data.length

/-- Modelled from the spec: `GetDataPointer()` is present only for resident files. -/
def File.GetDataPointer (self : File) : Option (List UInt8) :=
  if self.resident then some self.data else none

/-- Modelled from the spec: `Seek(offset, origin)` repositions the cursor without clamping and
fails with `InvalidArgument`, leaving the cursor alone, when the absolute position is
negative. -/
def File.Seek (self : File) (offset : Int) (origin : Origin) : Status × File :=
  let base : Int :=
    match origin with
    | .Start => 0
    | .Current => (self.cursor : Int)
    | .End => (self.data.length : Int)
  if base + offset < 0 then (.InvalidArgument, self)
  else (.Ok, { self with cursor := (base + offset).toNat })

/-- Modelled from the spec: `Read(destination, size, &readBytes)` produces at most `size` bytes
starting at the cursor and advances the cursor by the bytes produced; a short read is an
`IoError` unless the cursor was already at or past the end of the data. -/
def File.Read (self : File) (size : Nat) : Status × List UInt8 × File :=
  let got := (self.data.drop self.cursor).take size
  let status :=
    if got.length = size ∨ self.data.length ≤ self.cursor then Status.Ok else Status.IoError
  (status, got, { self with cursor := self.cursor + got.length })

/-- Ways in which the binding `File.read` does not return a bytes object. -/
inductive ReadError where
  /-- `py::bytes(ptr + position, size)` with a size that is negative as a `Py_ssize_t`. -/
  | NegativeSize
  /-- `py::bytes(ptr + position, size)` copying from beyond the resident buffer. -/
  | OutOfBounds
  /-- `PyObject_Malloc(offsetof(PyBytesObject, ob_sval) + size + 1)` and `PyObject_INIT_VAR` with
  a negative `size`: the block is null or shorter than the object written into it. -/
  | NegativeAllocation
  deriving DecidableEq, Repr

/-- The binding `File.read(size)`. `uninit k` is the byte found at offset `k` of the payload of
the freshly allocated bytes object. The result is the returned object, or the reason why none is
returned, together with the file afterwards. -/
def File.read (self : File) (size : Int) (uninit : Nat → UInt8) :
    Except ReadError (List UInt8) × File :=
  let position : Nat := self.Tell
  let file_size : Nat := self.GetSize
  let ptr := self.GetDataPointer
  let size : Int :=
    if size < 0 then to_ptrdiff_t (((file_size : Int) - (position : Int)) % 2 ^ 64) else size
  match ptr with
  | some mem =>
    let self1 := (self.Seek (to_ptrdiff_t (((position : Int) + size) % 2 ^ 64)) Origin.Start).2
    if size < 0 then (.error .NegativeSize, self1)
    else if position + size.toNat ≤ mem.length then
      (.ok ((mem.drop position).take size.toNat), self1)
    else (.error .OutOfBounds, self1)
  | none =>
    if size < 0 then (.error .NegativeAllocation, self)
    else
      let r := self.Read size.toNat
      (.ok (r.2.1 ++ (List.range (size.toNat - r.2.1.length)).map
        (fun k => uninit (r.2.1.length + k))), r.2.2)

/-! ## The binding `File.seek` (main.cpp, lines 321-324) -/

/-- Modelled from the spec: the enumerator of `fsal::File::Origin` that has the given integer
value, `Start` being the first one (section 6: `seek(offset, origin=Start)`). -/
def Origin.ofInt : Int → Option Origin
  | 0 => some .Start
  | 1 => some .Current
  | 2 => some .End
  | _ => none

/-- Modelled from the spec: the integer value of an enumerator of `fsal::File::Origin`. -/
def Origin.toInt : Origin → Int
  | .Start => 0
  | .Current => 1
  | .End => 2

/-- The binding `File.seek(offset, origin)`: `self.Seek(offset, Origin(origin))` followed by
`return self.Tell()`. The result is the returned position and the file afterwards; it is `none`
when `origin` is not the value of an enumerator, a case for which `Seek` is not described. -/
def File.seek (self : File) (offset : Int) (origin : Int) : Option (Nat × File) :=
  match Origin.ofInt origin with
  | none => none
  | some o =>
    let self1 := (self.Seek offset o).2
    some (self1.Tell, self1)

/-- The default `py::arg("origin") = 0` of the binding `File.seek`. -/
def File.seek_default_origin : Int := 0

/-- The absolute position which `Seek(offset, origin)` computes from its origin (section 4.2). -/
def File.seek_target (self : File) (offset : Int) (origin : Origin) : Int :=
  match origin with
  | .Start => 0 + offset
  | .Current => (self.cursor : Int) + offset
  | .End => (self.data.length : Int) + offset

/-! ## Python objects, errors and the host lock -/

/-- Ways in which a binding ends without returning a value: Python exceptions, and the end of
the process. -/
inductive PyError where
  /-- `PyErr_SetString(PyExc_IOError, msg)` followed by `throw py::error_already_set()`, with
  the lock held. -/
  | IoError (msg : String)
  /-- A null object handed back to the interpreter without an error being set. -/
  | NullResult
  /-- `PyErr_SetString` called while the lock is released: the state of the interpreter is
  written without the lock and the process is killed; no exception reaches the caller. -/
  | KilledWithoutLock
  deriving DecidableEq, Repr

/-- Python values which the bindings return. -/
inductive PyObj where
  | None
  | Bool (b : Bool)
  | Bytes (payload : List UInt8)
  | StrList (names : List String)
  | FileObj (f : File)

/-- Steps of a binding that matter for the discipline of the global interpreter lock. -/
inductive HostEvent where
  /-- Constructor of `py::gil_scoped_release`, or destructor of `py::gil_scoped_acquire`. -/
  | ReleaseGIL
  /-- Destructor of `py::gil_scoped_release`, or constructor of `py::gil_scoped_acquire`. -/
  | AcquireGIL
  /-- Host-managed memory is allocated (`PyObject_Malloc`, `ndarray_uint8(shape)`). -/
  | HostAllocate
  /-- A host error is set (`PyErr_SetString`). -/
  | HostSetError
  /-- File access or decompression (`std::fopen`, `Read`, `OpenFile`). -/
  | Blocking
  deriving DecidableEq, Repr

/-- Whether every allocation of host memory and every setting of a host error of the trace
happens while the lock is held; `held` tells whether the lock is held before the trace. -/
def gil_respected : Bool → List HostEvent → Bool
  | _, [] => true
  | _, .ReleaseGIL :: rest => gil_respected false rest
  | _, .AcquireGIL :: rest => gil_respected true rest
  | held, .HostAllocate :: rest => held && gil_respected held rest
  | held, .HostSetError :: rest => held && gil_respected held rest
  | held, .Blocking :: rest => gil_respected held rest

/-- Content of a freshly allocated block of `size` bytes after `stored` has been written at its
start: offset `k` holds `stored[k]` if there is one and the previous byte `uninit k` of the
block otherwise. -/
def store_into (size : Nat) (stored : List UInt8) (uninit : Nat → UInt8) : List UInt8 :=
  (List.range size).map (fun k => stored.getD k (uninit k))

/-- The statements `PyErr_SetString(PyExc_IOError, msg); throw py::error_already_set();`.
`held` tells whether the lock is held when they run: with the lock the Python exception is
raised, without it the process is killed. -/
def raise_io_error (held : Bool) (msg : String) : PyError :=
  if held then .IoError msg else .KilledWithoutLock

/-! ## Module-level `open_as_bytes` (main.cpp, lines 32-66 and 148-154) -/

/-- The function `openfile(filename, tmp_std)`. `held` tells whether the caller holds the lock
and `fopen` is the file system: the handle which `std::fopen(filename, "rb")` yields, if
any. -/
def openfile (held : Bool) (fopen : String → Option File) (filename : String) :
    Except PyError File × List HostEvent :=
  match fopen filename with
  | none =>
    (.error (raise_io_error held ("No such file " ++ filename)), [.Blocking, .HostSetError])
  | some fp => (.ok fp, [.Blocking])

/-- The function `read_as_bytes(fp)`: a bytes object of `fp.GetSize()` bytes is allocated,
`fp.Read` stores into its payload, and the count `retSize` is compared with the size. `held`
tells whether the caller holds the lock. -/
def read_as_bytes (held : Bool) (fp : File) (uninit : Nat → UInt8) :
    Except PyError PyObj × List HostEvent :=
  let size := fp.GetSize
  let r := fp.Read size
  let retSize := r.2.1.length
  let bytesObject := store_into size r.2.1 uninit
  if retSize ≠ size then
    (.error (raise_io_error held "Error reading file "),
      [.HostAllocate, .Blocking, .HostSetError])
  else
    (.ok (.Bytes bytesObject), [.HostAllocate, .Blocking])

/-- The module-level binding `open_as_bytes(filename)`: the whole body, `openfile` and
`read_as_bytes` included, runs inside the scope of a `py::gil_scoped_release`, that is with the
lock released. -/
def open_as_bytes (fopen : String → Option File) (filename : String) (uninit : Nat → UInt8) :
    Except PyError PyObj × List HostEvent :=
  let o := openfile false fopen filename
  match o.1 with
  | .error e => (.error e, [.ReleaseGIL] ++ o.2 ++ [.AcquireGIL])
  | .ok fp =>
    let r := read_as_bytes false fp uninit
    (r.1, [.ReleaseGIL] ++ o.2 ++ r.2 ++ [.AcquireGIL])

/-! ## The bindings of `Archive` (main.cpp, lines 191-268) -/

/-- Modelled from the spec: what a call `OpenFile(path, alloc)` of an archive reader does, as
its caller sees it (section 4.3): the sizes with which it invoked the callback, in order, the
bytes it then stored at the start of the block that the last invocation returned (no more than
it asked for), and whether the pointer it returns is non-null. -/
structure OpenFileRun where
  alloc_calls : List Nat
  written : List UInt8
  result_non_null : Bool

/-- Modelled from the spec: the capability interface `fsal::ArchiveReaderInterface` (declared in
`fsal.h`, section 4.3). `OpenFile` yields `none` for an empty `File`. -/
structure ArchiveReaderInterface where
  Exists : String → Bool
  ListDirectory : String → List String
  OpenFile : String → Option File
  OpenFileInto : String → OpenFileRun

/-- The binding `Archive.open(filepath)`. -/
def Archive_open (self : ArchiveReaderInterface) (filepath : String) :
    Except PyError PyObj × List HostEvent :=
  let f := self.OpenFile filepath
  match f with
  | some f => (.ok (.FileObj f), [.ReleaseGIL, .Blocking, .AcquireGIL])
  | none => (.ok .None, [.ReleaseGIL, .Blocking, .AcquireGIL])

/-- The binding `Archive.open_as_bytes(filepath)`. The callback `alloc` records the size and
allocates a bytes object, without touching the lock; the object of its last invocation is the
one returned. The test of the result of `OpenFile`, with `PyObject_Free` and `PyErr_SetString`
for a null pointer, stands inside the scope of the `py::gil_scoped_release`, that is with the
lock released. -/
def Archive_open_as_bytes (self : ArchiveReaderInterface) (filepath : String)
    (uninit : Nat → UInt8) : Except PyError PyObj × List HostEvent :=
  let run := self.OpenFileInto filepath
  let bytesObject : Option (List UInt8) :=
    run.alloc_calls.getLast?.map (fun size => store_into size run.written uninit)
  let events : List HostEvent :=
    [.ReleaseGIL] ++ run.alloc_calls.map (fun _ => HostEvent.HostAllocate) ++ [.Blocking]
  if run.result_non_null = false then
    (.error (raise_io_error false "Error reading file "),
      events ++ [.HostSetError, .AcquireGIL])
  else
    match bytesObject with
    | some payload => (.ok (.Bytes payload), events ++ [.AcquireGIL])
    | none => (.error .NullResult, events ++ [.AcquireGIL])

/-- Lock and host operations of one invocation of the callback `alloc` of
`Archive.open_as_numpy_ubyte` with the size `s`: the lock is taken, `fix_shape` runs, the array
is allocated, the lock is given back. The second component is the shape vector afterwards, or
`none` when `fix_shape` threw. -/
def open_as_numpy_ubyte_alloc_events (_shape : Option (List Int)) (shape : List Nat) (s : Nat) :
    List HostEvent × Option (List Nat) :=
  match fix_shape _shape s shape with
  | .error .InvalidShape => ([.AcquireGIL, .HostSetError, .ReleaseGIL], none)
  | .error .CantReshape => ([.AcquireGIL, .HostSetError, .ReleaseGIL], none)
  | .error _ => ([.AcquireGIL, .ReleaseGIL], none)
  | .ok shape1 => ([.AcquireGIL, .HostAllocate, .ReleaseGIL], some shape1)

/-- Lock and host operations of the invocations of `alloc` for the given sizes, until one of
them throws. -/
def open_as_numpy_ubyte_calls_events (_shape : Option (List Int)) :
    List Nat → List Nat → List HostEvent × Bool
  | [], _ => ([], false)
  | s :: rest, shape =>
    match open_as_numpy_ubyte_alloc_events _shape shape s with
    | (ev, none) => (ev, true)
    | (ev, some shape1) =>
      let r := open_as_numpy_ubyte_calls_events _shape rest shape1
      (ev ++ r.1, r.2)

/-- Lock and host operations of the binding `Archive.open_as_numpy_ubyte(filepath, _shape)`:
the empty array `data` is created first, then `OpenFile` runs inside the scope of a
`py::gil_scoped_release`, as does the error path for a null result. -/
def Archive_open_as_numpy_ubyte_events (self : ArchiveReaderInterface) (filepath : String)
    (_shape : Option (List Int)) : List HostEvent :=
  let run := self.OpenFileInto filepath
  let calls := open_as_numpy_ubyte_calls_events _shape run.alloc_calls []
  if calls.2 then
    [.HostAllocate, .ReleaseGIL] ++ calls.1 ++ [.AcquireGIL]
  else if run.result_non_null = false then
    [.HostAllocate, .ReleaseGIL] ++ calls.1 ++ [.Blocking, .HostSetError, .AcquireGIL]
  else
    [.HostAllocate, .ReleaseGIL] ++ calls.1 ++ [.Blocking, .AcquireGIL]

/-- The binding `Archive.list_directory(filepath)`. -/
def Archive_list_directory (self : ArchiveReaderInterface) (filepath : String) :
    Except PyError PyObj × List HostEvent :=
  (.ok (.Bool (self.Exists filepath)), [])

/-- Modelled from the spec: an entry of the index of a zip archive (section 3): its path and
its decompressed content, whose length is the decompressed size. -/
structure ZipEntry where
  path : String
  content : List UInt8

/-- Modelled from the spec: `ZipReader::OpenFile(path, allocate)` (section 4.3). The entry is
looked up by path equality; for an entry of decompressed size `S` the callback is invoked once
with `S`, the content is stored into the block it returned and that pointer is returned; for a
missing entry the result is null. -/
def ZipReader_OpenFileInto (index : List ZipEntry) (path : String) : OpenFileRun :=
  match index.find? (fun e => e.path == path) with
  | some e => { alloc_calls := [e.content.length], written := e.content, result_non_null := true }
  | none => { alloc_calls := [], written := [], result_non_null := false }

/-- The binding `Archive.exists(filepath)`. -/
def Archive_exists (self : ArchiveReaderInterface) (filepath : String) :
    Except PyError PyObj × List HostEvent :=
  (.ok (.Bool (self.Exists filepath)), [])

/-! ## `FileSystem.open` and `open_zip_archive` (main.cpp, lines 182-189 and 273-293) -/

/-- Modelled from the spec: the kind of a `Location` (section 3). -/
inductive PathType where
  | RelativePath
  | AbsolutePath
  deriving DecidableEq, Repr

/-- Modelled from the spec: a `Location` (section 3), reduced to its path and its kind. -/
structure Location where
  path : String
  kind : PathType

/-- The enumeration `fsal::Mode` as the module exports it (lines 167-174). -/
inductive Mode where
  | kRead
  | kWrite
  | kAppend
  | kReadUpdate
  | kWriteUpdate
  | kAppendUpdate
  deriving DecidableEq, Repr

/-- Modelled from the spec: the state of a `fsal::FileSystem` (section 3): the search paths, most
recently pushed first, and the mount table, given as the archive under whose mount prefix a path
falls, if there is one. -/
structure FileSystem where
  search_paths : List String
  mounted : String → Option ArchiveReaderInterface

/-- Modelled from the spec: a newly constructed `fsal::FileSystem` has no search path and no
mounted archive. -/
def FileSystem.init : FileSystem := { search_paths := [], mounted := fun _ => none }

/-- Modelled from the spec: `PushSearchPath(path)` puts the path on top of the stack
(section 4.4). -/
def FileSystem.PushSearchPath (fs : FileSystem) (path : String) : FileSystem :=
  { fs with search_paths := path :: fs.search_paths }

/-- Modelled from the spec: `Open(location, mode)` (section 4.4). A path under a mounted prefix
is delegated to the archive, which supports the mode `kRead` only; otherwise an absolute
location is opened directly and a relative one is tried under each search path, most recently
pushed first, the first successful open being returned. `disk root path mode` is the real file
system: the handle obtained by opening `path` under the directory `root`, if that succeeds. -/
def FileSystem.Open (disk : String → String → Mode → Option File) (fs : FileSystem)
    (location : Location) (mode : Mode) : Option File × Status :=
  match fs.mounted location.path with
  | some archive =>
    if mode = Mode.kRead then
      match archive.OpenFile location.path with
      | some f => (some f, .Ok)
      | none => (none, .NotFound)
    else (none, .InvalidArgument)
  | none =>
    let found :=
      match location.kind with
      | .AbsolutePath => disk "" location.path mode
      | .RelativePath => fs.search_paths.findSome? (fun root => disk root location.path mode)
    match found with
    | some f => (some f, .Ok)
    | none => (none, .NotFound)

/-- The binding `FileSystem.open(location, mode)`. -/
def FileSystem_open (disk : String → String → Mode → Option File) (fs : FileSystem)
    (location : Location) (mode : Mode) : Except PyError PyObj × List HostEvent :=
  let f := (fs.Open disk location mode).1
  match f with
  | some f => (.ok (.FileObj f), [])
  | none => (.ok .None, [])

/-- The default `py::arg("mode") = fsal::kRead` of the binding `FileSystem.open`. -/
def FileSystem_open_default_mode : Mode := Mode.kRead

/-- Modelled from the spec: the state of a `fsal::ZipReader` (section 3): the index built from
the container, once an archive has been opened. -/
structure ZipReader where
  index : Option (List ZipEntry)

/-- The binding `open_zip_archive(filename)`. `to_location` is the implicit conversion of a
path string to a `Location`, and `OpenArchive` is `ZipReader::OpenArchive`, whose `Status` the
binding drops; both are declared in `fsal.h`. The result is the reader object returned. -/
def open_zip_archive (disk : String → String → Mode → Option File)
    (to_location : String → Location)
    (OpenArchive : ZipReader → Option File → Status × ZipReader) (filename : String) :
    Except PyError ZipReader × List HostEvent :=
  let fs := FileSystem.init
  let archive_file := (fs.Open disk (to_location filename) Mode.kRead).1
  let zr : ZipReader := { index := none }
  let zr := (OpenArchive zr archive_file).2
  (.ok zr, [])

/-! ## Lemmas on the machine integers -/

theorem to_size_t_of_nonneg {s : Int} (h1 : 0 ≤ s) (h2 : s ≤ PTRDIFF_MAX) :
    to_size_t s = s.toNat := by
  unfold to_size_t
  unfold PTRDIFF_MAX at h2
  rw [Int.emod_eq_of_lt h1 (by omega)]

theorem cast_ptrdiff_t_ok {o : Int} (h : PTRDIFF_MIN ≤ o ∧ o ≤ PTRDIFF_MAX) :
    cast_ptrdiff_t o = .ok o := by
  unfold cast_ptrdiff_t
  rw [if_pos h]

theorem cast_ptrdiff_t_error {o : Int} (h : ¬ (PTRDIFF_MIN ≤ o ∧ o ≤ PTRDIFF_MAX)) :
    cast_ptrdiff_t o = .error .CastError := by
  unfold cast_ptrdiff_t
  rw [if_neg h]

theorem prod_pos_of_entries {l : List Int} (hl : ∀ s ∈ l, 1 ≤ s) : 1 ≤ l.prod := by
  induction l with
  | nil => simp
  | cons a l ih =>
    have ha : 1 ≤ a := hl a (List.mem_cons_self a l)
    have hp : 1 ≤ l.prod := ih (fun s hs => hl s (List.mem_cons_of_mem a hs))
    rw [List.prod_cons]
    nlinarith

theorem toNat_mul_of_nonneg {a b : Int} (ha : 0 ≤ a) (hb : 0 ≤ b) :
    (a * b).toNat = a.toNat * b.toNat := by
  obtain ⟨x, rfl⟩ := Int.eq_ofNat_of_zero_le ha
  obtain ⟨y, rfl⟩ := Int.eq_ofNat_of_zero_le hb
  rw [← Int.natCast_mul]
  simp only [Int.toNat_ofNat]

theorem mul_acc_lt (m : Nat) (l : List Int) (hm : m < SIZE_T_MOD) : mul_acc m l < SIZE_T_MOD := by
  induction l generalizing m with
  | nil => simpa [mul_acc] using hm
  | cons a l ih =>
    have h : mul_acc m (a :: l) = mul_acc ((m * to_size_t a) % SIZE_T_MOD) l := rfl
    rw [h]
    exact ih _ (Nat.mod_lt _ (by unfold SIZE_T_MOD; positivity))

theorem mul_acc_eq (m : Nat) (l : List Int) (hl : ∀ s ∈ l, 1 ≤ s ∧ s ≤ PTRDIFF_MAX) :
    mul_acc m l % SIZE_T_MOD = (m * l.prod.toNat) % SIZE_T_MOD := by
  induction l generalizing m with
  | nil => simp [mul_acc]
  | cons a l ih =>
    have h : mul_acc m (a :: l) = mul_acc ((m * to_size_t a) % SIZE_T_MOD) l := rfl
    have ha := hl a (List.mem_cons_self a l)
    have hl2 : ∀ s ∈ l, 1 ≤ s ∧ s ≤ PTRDIFF_MAX := fun s hs => hl s (List.mem_cons_of_mem a hs)
    have hp : 1 ≤ l.prod := prod_pos_of_entries (fun s hs => (hl2 s hs).1)
    rw [h, ih _ hl2, to_size_t_of_nonneg (by omega) ha.2, List.prod_cons,
      toNat_mul_of_nonneg (by omega) (by omega), Nat.mod_mul_mod, Nat.mul_assoc]

theorem mul_acc_append (m : Nat) (a b : List Int) :
    mul_acc m (a ++ b) = mul_acc (mul_acc m a) b := by
  unfold mul_acc
  rw [List.foldl_append]

/-! ## Lemmas on the loop of `fix_shape` -/

theorem fix_shape_loop_append (a b : List Int) (i : Nat) (st : Locals) :
    fix_shape_loop (a ++ b) i st =
      match fix_shape_loop a i st with
      | .error e => .error e
      | .ok st1 => fix_shape_loop b (i + a.length) st1 := by
  induction a generalizing i st with
  | nil => simp [fix_shape_loop]
  | cons o a ih =>
    simp only [List.cons_append, fix_shape_loop, List.length_cons]
    cases h : cast_ptrdiff_t o with
    | error e => rfl
    | ok s =>
      have hi : i + 1 + a.length = i + (a.length + 1) := by omega
      have e : a.append b = a ++ b := rfl
      dsimp only
      by_cases hs : s < 1
      · by_cases hm : st.has_minus = true
        · rw [if_pos hs, if_pos hs, if_pos hm, if_pos hm]
        · rw [if_pos hs, if_pos hs, if_neg hm, if_neg hm, e, ih, hi]
      · rw [if_neg hs, if_neg hs, e, ih, hi]

theorem fix_shape_loop_fixed (l : List Int) (hl : ∀ s ∈ l, 1 ≤ s ∧ s ≤ PTRDIFF_MAX)
    (i : Nat) (st : Locals) :
    fix_shape_loop l i st = .ok
      { has_minus := st.has_minus, mul := mul_acc st.mul l, minus_id := st.minus_id,
        shape_ := st.shape_ ++ l.map Int.toNat } := by
  induction l generalizing i st with
  | nil => simp [fix_shape_loop, mul_acc]
  | cons o l ih =>
    have ho := hl o (List.mem_cons_self o l)
    have hl2 : ∀ s ∈ l, 1 ≤ s ∧ s ≤ PTRDIFF_MAX := fun s hs => hl s (List.mem_cons_of_mem o hs)
    have hc : cast_ptrdiff_t o = .ok o :=
      cast_ptrdiff_t_ok ⟨by unfold PTRDIFF_MIN; omega, ho.2⟩
    have hno : ¬ o < 1 := by omega
    simp only [fix_shape_loop, hc, if_neg hno]
    have hs : to_size_t o = o.toNat := to_size_t_of_nonneg (by omega) ho.2
    rw [ih hl2]
    simp [mul_acc, hs]

theorem fix_shape_loop_wildcard (w : Int) (rest : List Int) (hw : w < 1) (hwr : PTRDIFF_MIN ≤ w)
    (i : Nat) (st : Locals) (hst : st.has_minus = false) :
    fix_shape_loop (w :: rest) i st =
      fix_shape_loop rest (i + 1)
        { has_minus := true, mul := st.mul, minus_id := (i : Int),
          shape_ := st.shape_ ++ [to_size_t w] } := by
  have hc : cast_ptrdiff_t w = .ok w :=
    cast_ptrdiff_t_ok ⟨hwr, by unfold PTRDIFF_MAX; omega⟩
  simp only [fix_shape_loop, hc, if_pos hw, hst]
  rfl

/-- Complete behaviour of `fix_shape` on a template with exactly one wildcard `w`, all of whose
entries are representable: the divisor is the wrapped product of the other entries. -/
theorem fix_shape_one_wildcard (pre post : List Int) (w : Int) (size : Nat) (old : List Nat)
    (hpre : ∀ s ∈ pre, 1 ≤ s ∧ s ≤ PTRDIFF_MAX) (hpost : ∀ s ∈ post, 1 ≤ s ∧ s ≤ PTRDIFF_MAX)
    (hw : w < 1) (hwr : PTRDIFF_MIN ≤ w) :
    fix_shape (some (pre ++ w :: post)) size old =
      if mul_acc 1 (pre ++ post) = 0 then .error .DivisionByZero
      else if size % mul_acc 1 (pre ++ post) = 0 then
        .ok (pre.map Int.toNat ++ (size / mul_acc 1 (pre ++ post)) :: post.map Int.toNat)
      else .error .CantReshape := by
  unfold fix_shape
  simp only [clear]
  rw [fix_shape_loop_append, fix_shape_loop_fixed pre hpre]
  simp only
  rw [fix_shape_loop_wildcard w post hw hwr _ _ rfl, fix_shape_loop_fixed post hpost]
  simp only [mul_acc_append, List.nil_append, if_true]
  have hset : ∀ v : Nat, (pre.map Int.toNat ++ [to_size_t w] ++ post.map Int.toNat).set
      ((0 + pre.length : Nat) : Int).toNat v = pre.map Int.toNat ++ v :: post.map Int.toNat := by
    intro v
    simp
  rw [hset]

/-- Complete behaviour of `fix_shape` on a template without wildcard, all of whose entries are
representable: the template is returned and the byte count is not looked at. -/
theorem fix_shape_no_wildcard (t : List Int) (size : Nat) (old : List Nat)
    (ht : ∀ s ∈ t, 1 ≤ s ∧ s ≤ PTRDIFF_MAX) :
    fix_shape (some t) size old = .ok (t.map Int.toNat) := by
  unfold fix_shape
  simp only [clear]
  rw [fix_shape_loop_fixed t ht]
  simp

theorem map_toNat_cast {l : List Int} (hl : ∀ s ∈ l, 1 ≤ s) :
    (l.map Int.toNat).map Int.ofNat = l := by
  induction l with
  | nil => rfl
  | cons a l ih =>
    have ha : 1 ≤ a := hl a (List.mem_cons_self a l)
    have h2 := ih (fun s hs => hl s (List.mem_cons_of_mem a hs))
    simp only [List.map_cons, h2]
    congr 1
    exact Int.toNat_of_nonneg (by omega)

theorem OneWildcardAt.decompose {t : List Int} {i : Nat} (h : OneWildcardAt t i) :
    ∃ pre w post, t = pre ++ w :: post ∧ pre.length = i ∧ w < 1 ∧
      (∀ s ∈ pre, 1 ≤ s) ∧ (∀ s ∈ post, 1 ≤ s) := by
  induction t generalizing i with
  | nil => exact absurd h.1 (by simp)
  | cons a t ih =>
    obtain ⟨hlen, hw, hrest⟩ := h
    cases i with
    | zero =>
      refine ⟨[], a, t, rfl, rfl, ?_, by simp, ?_⟩
      · simpa using hw
      · simpa using hrest
    | succ k =>
      have hk : OneWildcardAt t k := by
        refine ⟨by simpa using hlen, by simpa using hw, ?_⟩
        intro s hs
        exact hrest s (by simp [hs])
      obtain ⟨pre, w, post, rfl, rfl, hw1, hpre, hpost⟩ := ih hk
      refine ⟨a :: pre, w, post, rfl, rfl, hw1, ?_, hpost⟩
      intro s hs
      rcases List.mem_cons.mp hs with rfl | hs
      · exact hrest s (by simp)
      · exact hpre s hs

/-! ## Claims on `fix_shape` -/

theorem fixed_prod_decomposed (pre post : List Int) (w : Int) :
    fixed_prod (pre ++ w :: post) pre.length = (pre ++ post).prod.toNat := by
  unfold fixed_prod
  rw [List.eraseIdx_append_of_length_le (Nat.le_refl _)]
  simp

theorem set_decomposed (pre post : List Int) (w v : Int) :
    (pre ++ w :: post).set pre.length v = pre ++ v :: post := by
  simp

theorem InPtrdiffRange.decomposed {pre post : List Int} {w : Int}
    (hr : InPtrdiffRange (pre ++ w :: post)) (hpre : ∀ s ∈ pre, 1 ≤ s) (hpost : ∀ s ∈ post, 1 ≤ s) :
    (∀ s ∈ pre, 1 ≤ s ∧ s ≤ PTRDIFF_MAX) ∧ (∀ s ∈ post, 1 ≤ s ∧ s ≤ PTRDIFF_MAX) ∧
      PTRDIFF_MIN ≤ w ∧ ∀ s ∈ pre ++ post, 1 ≤ s ∧ s ≤ PTRDIFF_MAX := by
  have h1 : ∀ s ∈ pre, 1 ≤ s ∧ s ≤ PTRDIFF_MAX :=
    fun s hs => ⟨hpre s hs, (hr s (by simp [hs])).2⟩
  have h2 : ∀ s ∈ post, 1 ≤ s ∧ s ≤ PTRDIFF_MAX :=
    fun s hs => ⟨hpost s hs, (hr s (by simp [hs])).2⟩
  refine ⟨h1, h2, (hr w (by simp)).1, ?_⟩
  intro s hs
  rcases List.mem_append.mp hs with h | h
  · exact h1 s h
  · exact h2 s h

/-- C1 (amended): for every byte count `n < 2 ^ 64` and every template whose entries are
representable as `ptrdiff_t`, with exactly one wildcard at index `i`, whose other entries have a
product `mul` that is not a multiple of `2 ^ 64` and divides `n`, `fix_shape` succeeds and
returns the template with entry `i` replaced by `n / mul` and every other entry unchanged. -/
theorem fix_shape_wildcard_resolved (n : Nat) (t : List Int) (i : Nat) (old : List Nat)
    (hn : n < SIZE_T_MOD) (hr : InPtrdiffRange t) (hw : OneWildcardAt t i)
    (hov : fixed_prod t i % SIZE_T_MOD ≠ 0) (hdiv : n % fixed_prod t i = 0) :
    ∃ r, fix_shape (some t) n old = .ok r ∧
      r.map Int.ofNat = t.set i (Int.ofNat (n / fixed_prod t i)) := by
  obtain ⟨pre, w, post, rfl, rfl, hw1, hpre, hpost⟩ := hw.decompose
  obtain ⟨h1, h2, hwr, h3⟩ := hr.decomposed hpre hpost
  rw [fixed_prod_decomposed] at hov hdiv ⊢
  have hacc := mul_acc_eq 1 (pre ++ post) h3
  have hlt := mul_acc_lt 1 (pre ++ post) (by unfold SIZE_T_MOD; norm_num)
  rw [Nat.mod_eq_of_lt hlt, Nat.one_mul] at hacc
  rw [fix_shape_one_wildcard pre post w n old h1 h2 hw1 hwr, hacc, if_neg hov]
  have hP : 1 ≤ (pre ++ post).prod := prod_pos_of_entries (fun s hs => (h3 s hs).1)
  have hquot : n % ((pre ++ post).prod.toNat % SIZE_T_MOD) = 0 ∧
      n / ((pre ++ post).prod.toNat % SIZE_T_MOD) = n / (pre ++ post).prod.toNat := by
    rcases Nat.eq_zero_or_pos n with h0 | hpos
    · subst h0
      simp
    · have hle : (pre ++ post).prod.toNat ≤ n :=
        Nat.le_of_dvd hpos (Nat.dvd_of_mod_eq_zero hdiv)
      rw [Nat.mod_eq_of_lt (lt_of_le_of_lt hle hn)]
      exact ⟨hdiv, rfl⟩
  rw [if_pos hquot.1, hquot.2]
  refine ⟨_, rfl, ?_⟩
  rw [set_decomposed, List.map_append, List.map_cons, map_toNat_cast hpre, map_toNat_cast hpost]

/-- Witness for C1 (amended): the template `(2, -1, 3)` and `12` bytes. -/
theorem fix_shape_wildcard_resolved_witness :
    ∃ r, fix_shape (some [2, -1, 3]) 12 [] = .ok r ∧
      r.map Int.ofNat = [2, -1, 3].set 1 (Int.ofNat (12 / fixed_prod [2, -1, 3] 1)) :=
  fix_shape_wildcard_resolved 12 [2, -1, 3] 1 [] (by decide) (by decide) (by decide)
    (by decide) (by decide)

/-- C1 (as stated) fails: the template `(2 ^ 63, -1)` with `2 ^ 63` bytes has one wildcard and
a fixed product dividing the byte count, but its first entry does not convert to `ptrdiff_t`;
the template `(2 ^ 32, 2 ^ 32, -1)` with `0` bytes has a fixed product `2 ^ 64` dividing `0`,
but the 64-bit divisor is `0`. -/
theorem fix_shape_wildcard_resolved_counterexample :
    (OneWildcardAt [2 ^ 63, -1] 1 ∧ 2 ^ 63 % fixed_prod [2 ^ 63, -1] 1 = 0 ∧
      fix_shape (some [2 ^ 63, -1]) (2 ^ 63) [] = .error .CastError) ∧
    (OneWildcardAt [2 ^ 32, 2 ^ 32, -1] 2 ∧ 0 % fixed_prod [2 ^ 32, 2 ^ 32, -1] 2 = 0 ∧
      fix_shape (some [2 ^ 32, 2 ^ 32, -1]) 0 [] = .error .DivisionByZero) := by
  refine ⟨⟨by decide, by decide, by rfl⟩, ⟨by decide, by decide, by rfl⟩⟩

/-- C2 (amended): for every byte count `n` and every template whose entries are representable
as `ptrdiff_t`, with exactly one wildcard, whose other entries have a product `mul` below
`2 ^ 64` (no wrap-around), `fix_shape` fails with "Can't reshape" if and only if `mul` does not
divide `n`. -/
theorem fix_shape_cant_reshape_iff (n : Nat) (t : List Int) (i : Nat) (old : List Nat)
    (hr : InPtrdiffRange t) (hw : OneWildcardAt t i) (hov : fixed_prod t i < SIZE_T_MOD) :
    fix_shape (some t) n old = .error .CantReshape ↔ ¬ fixed_prod t i ∣ n := by
  obtain ⟨pre, w, post, rfl, rfl, hw1, hpre, hpost⟩ := hw.decompose
  obtain ⟨h1, h2, hwr, h3⟩ := hr.decomposed hpre hpost
  rw [fixed_prod_decomposed] at hov ⊢
  have hacc := mul_acc_eq 1 (pre ++ post) h3
  have hlt := mul_acc_lt 1 (pre ++ post) (by unfold SIZE_T_MOD; norm_num)
  rw [Nat.mod_eq_of_lt hlt, Nat.one_mul, Nat.mod_eq_of_lt hov] at hacc
  have hP : 1 ≤ (pre ++ post).prod := prod_pos_of_entries (fun s hs => (h3 s hs).1)
  have hne : (pre ++ post).prod.toNat ≠ 0 := by omega
  rw [fix_shape_one_wildcard pre post w n old h1 h2 hw1 hwr, hacc, if_neg hne,
    Nat.dvd_iff_mod_eq_zero]
  by_cases hd : n % (pre ++ post).prod.toNat = 0
  · rw [if_pos hd]
    constructor
    · intro h
      cases h
    · intro h
      exact absurd hd h
  · rw [if_neg hd]
    exact ⟨fun _ => hd, fun _ => rfl⟩

/-- Witness for C2 (amended): the template `(2, -1, 3)` and `13` bytes. -/
theorem fix_shape_cant_reshape_iff_witness :
    fix_shape (some [2, -1, 3]) 13 [] = .error .CantReshape ↔ ¬ fixed_prod [2, -1, 3] 1 ∣ 13 :=
  fix_shape_cant_reshape_iff 13 [2, -1, 3] 1 [] (by decide) (by decide) (by decide)

/-- C2 (as stated) fails: for `(2 ^ 32, 2 ^ 32 + 1, -1)` and `2 ^ 32` bytes the fixed product
`2 ^ 64 + 2 ^ 32` does not divide the byte count, yet `fix_shape` succeeds (the 64-bit divisor is
`2 ^ 32`); for `(2 ^ 63, -1)` and `1` byte the failure is the conversion error. -/
theorem fix_shape_cant_reshape_iff_counterexample :
    (OneWildcardAt [2 ^ 32, 2 ^ 32 + 1, -1] 2 ∧
      ¬ fixed_prod [2 ^ 32, 2 ^ 32 + 1, -1] 2 ∣ 2 ^ 32 ∧
      fix_shape (some [2 ^ 32, 2 ^ 32 + 1, -1]) (2 ^ 32) [] = .ok [2 ^ 32, 2 ^ 32 + 1, 1]) ∧
    (OneWildcardAt [2 ^ 63, -1] 1 ∧ ¬ fixed_prod [2 ^ 63, -1] 1 ∣ 1 ∧
      fix_shape (some [2 ^ 63, -1]) 1 [] = .error .CastError) := by
  refine ⟨⟨by decide, by decide, by rfl⟩, ⟨by decide, by decide, by rfl⟩⟩

theorem fix_shape_loop_invalid (l : List Int) (hr : InPtrdiffRange l) (i : Nat) (st : Locals)
    (hc : (if st.has_minus then 1 else 2) ≤ wildcard_count l) :
    fix_shape_loop l i st = .error .InvalidShape := by
  induction l generalizing i st with
  | nil =>
    exfalso
    revert hc
    cases st.has_minus <;> simp [wildcard_count]
  | cons o l ih =>
    have ho := hr o (List.mem_cons_self o l)
    have hr2 : InPtrdiffRange l := fun s hs => hr s (List.mem_cons_of_mem o hs)
    have hcast : cast_ptrdiff_t o = .ok o := cast_ptrdiff_t_ok ho
    rw [fix_shape_loop, hcast]
    dsimp only
    by_cases hs : o < 1
    · by_cases hm : st.has_minus = true
      · rw [if_pos hs, if_pos hm]
      · rw [if_pos hs, if_neg hm]
        apply ih hr2
        have hcnt : wildcard_count (o :: l) = wildcard_count l + 1 := by
          simp [wildcard_count, hs]
        rw [hcnt] at hc
        simp only [Bool.not_eq_true] at hm
        rw [hm] at hc
        simp only [if_true]
        simp only [Bool.false_eq_true, if_false] at hc
        omega
    · rw [if_neg hs]
      apply ih hr2
      have hcnt : wildcard_count (o :: l) = wildcard_count l := by
        simp [wildcard_count, hs]
      rw [hcnt] at hc
      exact hc

/-- C3 (amended): for every byte count `n`, `fix_shape` applied to a template whose entries are
representable as `ptrdiff_t` and which contains two or more entries `< 1` fails with
"Invalid shape", whatever the other entries are and whether or not the remaining product
divides `n`. -/
theorem fix_shape_two_wildcards (n : Nat) (t : List Int) (old : List Nat)
    (hr : InPtrdiffRange t) (h2 : 2 ≤ wildcard_count t) :
    fix_shape (some t) n old = .error .InvalidShape := by
  unfold fix_shape
  simp only [clear]
  rw [fix_shape_loop_invalid t hr 0 _ (by simpa using h2)]

/-- Witness for C3 (amended): the template `(-1, 4, 0)` and `8` bytes. -/
theorem fix_shape_two_wildcards_witness :
    fix_shape (some [-1, 4, 0]) 8 [] = .error .InvalidShape :=
  fix_shape_two_wildcards 8 [-1, 4, 0] [] (by decide) (by decide)

/-- C3 (as stated) fails: the template `(2 ^ 63, -1, -1)` has two wildcards, but `fix_shape`
ends with the conversion error of its first entry before it meets them. -/
theorem fix_shape_two_wildcards_counterexample :
    2 ≤ wildcard_count [2 ^ 63, -1, -1] ∧
      fix_shape (some [2 ^ 63, -1, -1]) 8 [] = .error .CastError ∧
      fix_shape (some [2 ^ 63, -1, -1]) 8 [] ≠ .error .InvalidShape := by
  refine ⟨by decide, by rfl, ?_⟩
  intro h
  cases h

/-- C4: for every byte count `n`, `fix_shape` applied to an absent template (`None`) succeeds
and returns the one-element shape `[n]`. -/
theorem fix_shape_none (n : Nat) (old : List Nat) : fix_shape none n old = .ok [n] := by
  rfl

/-- C5 (amended): for every byte count `n` and every template all of whose entries are `≥ 1`
and at most `2 ^ 63 - 1` and whose product equals `n`, `fix_shape` succeeds and returns the
template unchanged (same length, same entries, same order). -/
theorem fix_shape_exact_template (n : Nat) (t : List Int) (old : List Nat)
    (ht : ∀ s ∈ t, 1 ≤ s ∧ s ≤ PTRDIFF_MAX) (_hprod : t.prod = (n : Int)) :
    ∃ r, fix_shape (some t) n old = .ok r ∧ r.map Int.ofNat = t :=
  ⟨t.map Int.toNat, fix_shape_no_wildcard t n old ht, map_toNat_cast (fun s hs => (ht s hs).1)⟩

/-- Witness for C5 (amended): the template `(2, 3, 4)` and `24` bytes. -/
theorem fix_shape_exact_template_witness :
    ∃ r, fix_shape (some [2, 3, 4]) 24 [] = .ok r ∧ r.map Int.ofNat = [2, 3, 4] :=
  fix_shape_exact_template 24 [2, 3, 4] [] (by decide) (by decide)

/-- C5 (as stated) fails: the template `(2 ^ 63,)` has a single entry `≥ 1` whose product is the
byte count `2 ^ 63`, but the entry does not convert to `ptrdiff_t`. -/
theorem fix_shape_exact_template_counterexample :
    (∀ s ∈ [(2 : Int) ^ 63], 1 ≤ s) ∧ [(2 : Int) ^ 63].prod = ((2 ^ 63 : Nat) : Int) ∧
      fix_shape (some [2 ^ 63]) (2 ^ 63) [] = .error .CastError := by
  refine ⟨by decide, by decide, by rfl⟩

/-- C6 (amended): for every template all of whose entries are `≥ 1` and at most `2 ^ 63 - 1`
and every byte count `n`, including every `n` that differs from the product of the entries,
`fix_shape` does not fail and returns the template unchanged: no consistency check between the
element count of the template and `n` is performed when no wildcard is present. -/
theorem fix_shape_no_consistency_check (n : Nat) (t : List Int) (old : List Nat)
    (ht : ∀ s ∈ t, 1 ≤ s ∧ s ≤ PTRDIFF_MAX) :
    fix_shape (some t) n old = .ok (t.map Int.toNat) ∧ (t.map Int.toNat).map Int.ofNat = t :=
  ⟨fix_shape_no_wildcard t n old ht, map_toNat_cast (fun s hs => (ht s hs).1)⟩

/-- Witness for C6 (amended): the template `(4, 5)` with `3` bytes. -/
theorem fix_shape_no_consistency_check_witness :
    fix_shape (some [4, 5]) 3 [] = .ok ([4, 5].map Int.toNat) ∧
      ([4, 5].map Int.toNat).map Int.ofNat = [4, 5] :=
  fix_shape_no_consistency_check 3 [4, 5] [] (by decide)

/-- C6 (as stated) fails: the template `(2 ^ 63,)` has a single entry `≥ 1`, and with `1` byte
`fix_shape` ends with the conversion error. -/
theorem fix_shape_no_consistency_check_counterexample :
    (∀ s ∈ [(2 : Int) ^ 63], 1 ≤ s) ∧
      fix_shape (some [2 ^ 63]) 1 [] = .error .CastError := by
  refine ⟨by decide, by rfl⟩

theorem fix_shape_loop_agree (l1 l2 : List Int) (h : List.Forall₂ Interchangeable l1 l2)
    (hb1 : ∀ s ∈ l1, PTRDIFF_MIN ≤ s) (hb2 : ∀ s ∈ l2, PTRDIFF_MIN ≤ s)
    (i : Nat) (s1 s2 : Locals) (hs : LocalsAgree i s1 s2) :
    (∃ e, fix_shape_loop l1 i s1 = .error e ∧ fix_shape_loop l2 i s2 = .error e) ∨
    (∃ r1 r2, fix_shape_loop l1 i s1 = .ok r1 ∧ fix_shape_loop l2 i s2 = .ok r2 ∧
      LocalsAgree (i + l1.length) r1 r2) := by
  induction h generalizing i s1 s2 with
  | nil => exact Or.inr ⟨s1, s2, rfl, rfl, by simpa using hs⟩
  | @cons a b l1 l2 hab _ ih =>
    have ha : PTRDIFF_MIN ≤ a := hb1 a (List.mem_cons_self a l1)
    have hb : PTRDIFF_MIN ≤ b := hb2 b (List.mem_cons_self b l2)
    have hb1t : ∀ s ∈ l1, PTRDIFF_MIN ≤ s := fun s hs => hb1 s (List.mem_cons_of_mem a hs)
    have hb2t : ∀ s ∈ l2, PTRDIFF_MIN ≤ s := fun s hs => hb2 s (List.mem_cons_of_mem b hs)
    have hlen : i + 1 + l1.length = i + (a :: l1).length := by
      simp only [List.length_cons]; omega
    obtain ⟨hm, hmul, hid, hl1, hl2, hshape⟩ := hs
    rw [fix_shape_loop, fix_shape_loop]
    by_cases hwa : a < 1
    · -- both entries are wildcards
      have hwb : b < 1 := by
        rcases hab with rfl | ⟨_, h⟩
        · exact hwa
        · exact h
      rw [cast_ptrdiff_t_ok ⟨ha, by unfold PTRDIFF_MAX; omega⟩,
        cast_ptrdiff_t_ok ⟨hb, by unfold PTRDIFF_MAX; omega⟩]
      dsimp only
      rw [if_pos hwa, if_pos hwb, ← hm]
      by_cases hm1 : s1.has_minus = true
      · rw [if_pos hm1, if_pos hm1]
        exact Or.inl ⟨_, rfl, rfl⟩
      · rw [if_neg hm1, if_neg hm1, ← hlen]
        apply ih hb1t hb2t
        rw [if_neg hm1] at hshape
        refine ⟨rfl, hmul, rfl, by simp [hl1], by simp [hl2], ?_⟩
        simp only [if_true]
        refine ⟨by simp, ?_⟩
        intro v
        rw [← hshape, Int.toNat_ofNat, List.set_append, List.set_append, hl1]
        simp
    · -- both entries are the same fixed dimension
      have hab2 : a = b := by
        rcases hab with h | ⟨h, _⟩
        · exact h
        · exact absurd h hwa
      subst hab2
      cases hc : cast_ptrdiff_t a with
      | error e => exact Or.inl ⟨e, rfl, rfl⟩
      | ok s =>
        have hsa : s = a := by
          unfold cast_ptrdiff_t at hc
          split at hc
          · cases hc; rfl
          · cases hc
        subst hsa
        dsimp only
        rw [if_neg hwa, if_neg hwa, ← hlen]
        apply ih hb1t hb2t
        refine ⟨hm, by rw [hmul], hid, by simp [hl1], by simp [hl2], ?_⟩
        by_cases hm1 : s1.has_minus = true
        · rw [if_pos hm1] at hshape
          simp only [hm1, if_true]
          refine ⟨by omega, ?_⟩
          intro v
          rw [List.set_append, List.set_append, hl1, hl2, if_pos hshape.1, if_pos hshape.1,
            hshape.2 v]
        · rw [if_neg hm1] at hshape
          simp only [hm1, if_false]
          rw [hshape]
          simp

/-- C7 (amended): any value from `-2 ^ 63` to `0` is a wildcard marker and all such values are
interchangeable: for every byte count `n` and every two templates of equal length, without
entries below `-2 ^ 63`, that agree on every entry `≥ 1` and have entries `< 1` at the same
positions, `fix_shape` gives the same outcome (the same resolved shape, or the same error). -/
theorem fix_shape_wildcards_interchangeable (n : Nat) (t1 t2 : List Int) (old1 old2 : List Nat)
    (h : List.Forall₂ Interchangeable t1 t2)
    (hb1 : ∀ s ∈ t1, PTRDIFF_MIN ≤ s) (hb2 : ∀ s ∈ t2, PTRDIFF_MIN ≤ s) :
    fix_shape (some t1) n old1 = fix_shape (some t2) n old2 := by
  unfold fix_shape
  simp only [clear]
  have h0 : LocalsAgree 0 { has_minus := false, mul := 1, minus_id := -1, shape_ := [] }
      { has_minus := false, mul := 1, minus_id := -1, shape_ := [] } :=
    ⟨rfl, rfl, rfl, rfl, rfl, by simp⟩
  rcases fix_shape_loop_agree t1 t2 h hb1 hb2 0 _ _ h0 with ⟨e, h1, h2⟩ | ⟨r1, r2, h1, h2, hr⟩
  · rw [h1, h2]
  · rw [h1, h2]
    obtain ⟨hm, hmul, hid, _, _, hshape⟩ := hr
    dsimp only
    rw [← hm, ← hmul, ← hid]
    by_cases hm1 : r1.has_minus = true
    · rw [if_pos hm1] at hshape
      rw [if_pos hm1, if_pos hm1, hshape.2]
    · rw [if_neg hm1] at hshape
      rw [if_neg hm1, if_neg hm1, hshape]

/-- Witness for C7 (amended): the templates `(2, 0, 3)` and `(2, -7, 3)` with `12` bytes. -/
theorem fix_shape_wildcards_interchangeable_witness :
    fix_shape (some [2, 0, 3]) 12 [] = fix_shape (some [2, -7, 3]) 12 [] :=
  fix_shape_wildcards_interchangeable 12 [2, 0, 3] [2, -7, 3] [] []
    (List.Forall₂.cons (Or.inl rfl) (List.Forall₂.cons (Or.inr ⟨by decide, by decide⟩)
      (List.Forall₂.cons (Or.inl rfl) List.Forall₂.nil)))
    (by decide) (by decide)

/-- C7 (as stated) fails: the templates `(-1,)` and `(-2 ^ 63 - 1,)` both consist of one entry
`< 1`, but with `4` bytes the first resolves to `[4]` and the second ends with the conversion
error. -/
theorem fix_shape_wildcards_interchangeable_counterexample :
    List.Forall₂ Interchangeable [-1] [-2 ^ 63 - 1] ∧
      fix_shape (some [-1]) 4 [] = .ok [4] ∧
      fix_shape (some [-2 ^ 63 - 1]) 4 [] = .error .CastError ∧
      fix_shape (some [-1]) 4 [] ≠ fix_shape (some [-2 ^ 63 - 1]) 4 [] := by
  refine ⟨List.Forall₂.cons (Or.inr ⟨by decide, by decide⟩) List.Forall₂.nil, by rfl, by rfl, ?_⟩
  intro h
  cases h

/-- C8: the outcome of `fix_shape` (resolved shape or error) is a function of the template and
the byte count only: it does not depend on the previous content of the output vector. -/
theorem fix_shape_ignores_previous_output (t : Option (List Int)) (n : Nat)
    (old1 old2 : List Nat) : fix_shape t n old1 = fix_shape t n old2 := by
  rfl

/-! ## Claims on the numpy destination and on `File.read` -/

/-- C9 (failing input): for the template `(1,)` and a file or archive entry of `2` bytes,
`fix_shape` succeeds with the shape `[1]`, so the array handed to the reader has `1` writable
byte while the reader is asked to store `2` bytes, in `read_as_numpy_ubyte` as well as in the
callback of `Archive.open_as_numpy_ubyte`. -/
theorem numpy_destination_too_small :
    fix_shape (some [1]) 2 [] = .ok [1] ∧
      read_as_numpy_ubyte 2 (some [1]) = .ok { capacity := 1, requested := 2 } ∧
      open_as_numpy_ubyte_alloc (some [1]) [] 2 = .ok { capacity := 1, requested := 2 } ∧
      ndarray_uint8_nbytes [1] < 2 := by
  refine ⟨by rfl, by rfl, by rfl, by decide⟩

theorem to_ptrdiff_t_of_small {n : Int} (h0 : 0 ≤ n) (h1 : n < 2 ^ 63) :
    to_ptrdiff_t (n % 2 ^ 64) = n := by
  unfold to_ptrdiff_t
  rw [Int.emod_eq_of_lt h0 (by omega), Int.emod_eq_of_lt (by omega) (by omega)]
  omega

/-- C10: for every File whose cursor `p` satisfies `p ≤ GetSize()`, `File.read` called with a
negative size (the default `-1`) requests exactly `GetSize() - p` bytes: the returned bytes
object has that length, and for a resident file it equals the data from offset `p` to the end
and leaves the cursor at `GetSize()`. The hypothesis `hsz` is the bound that the size of every
file and of every buffer in memory obeys (`off_t`, `PTRDIFF_MAX`). -/
theorem File_read_negative_size (self : File) (size : Int) (uninit : Nat → UInt8)
    (hp : self.Tell ≤ self.GetSize) (hsz : self.GetSize < 2 ^ 63) (hneg : size < 0) :
    ∃ b, (self.read size uninit).1 = .ok b ∧ b.length = self.GetSize - self.Tell ∧
      (self.resident = true →
        b = self.data.drop self.Tell ∧ (self.read size uninit).2.Tell = self.GetSize) := by
  obtain ⟨data, cursor, resident⟩ := self
  simp only [File.Tell, File.GetSize] at hp hsz
  have hd : to_ptrdiff_t (((data.length : Int) - (cursor : Int)) % 2 ^ 64) =
      ((data.length - cursor : Nat) : Int) := by
    rw [to_ptrdiff_t_of_small (by omega) (by omega)]
    omega
  have hs : to_ptrdiff_t (((cursor : Int) + ((data.length - cursor : Nat) : Int)) % 2 ^ 64) =
      (data.length : Int) := by
    rw [to_ptrdiff_t_of_small (by omega) (by omega)]
    omega
  have hnn : ¬ ((data.length - cursor : Nat) : Int) < 0 := by omega
  cases resident with
  | true =>
    refine ⟨data.drop cursor, ?_, ?_, ?_⟩
    · simp only [File.read, File.Tell, File.GetSize, File.GetDataPointer, if_pos hneg, hd, hs,
        if_neg hnn, if_true, Int.toNat_ofNat]
      rw [if_pos (by omega)]
      simp
    · simp
      rfl
    · intro _
      refine ⟨rfl, ?_⟩
      have hge : ¬ ((data.length : Int) < 0) := by omega
      simp only [File.read, File.Tell, File.GetSize, File.GetDataPointer, if_pos hneg, hd, hs,
        if_neg hnn, if_true, Int.toNat_ofNat, File.Seek]
      rw [if_pos (by omega)]
      simp [hge]
  | false =>
    refine ⟨data.drop cursor, ?_, ?_, ?_⟩
    · simp only [File.read, File.Tell, File.GetSize, File.GetDataPointer, if_pos hneg, hd,
        if_neg hnn, Int.toNat_ofNat, File.Read]
      simp
    · simp
      rfl
    · intro h
      cases h

/-- Witness for C10: a resident file of five bytes with the cursor at offset `2`. -/
theorem File_read_negative_size_witness :
    ∃ b, (File.read ⟨[1, 2, 3, 4, 5], 2, true⟩ (-1) (fun _ => 0)).1 = .ok b ∧
      b.length = File.GetSize ⟨[1, 2, 3, 4, 5], 2, true⟩ - File.Tell ⟨[1, 2, 3, 4, 5], 2, true⟩ ∧
      ((File.mk [1, 2, 3, 4, 5] 2 true).resident = true →
        b = (File.mk [1, 2, 3, 4, 5] 2 true).data.drop (File.Tell ⟨[1, 2, 3, 4, 5], 2, true⟩) ∧
          (File.read ⟨[1, 2, 3, 4, 5], 2, true⟩ (-1) (fun _ => 0)).2.Tell =
            File.GetSize ⟨[1, 2, 3, 4, 5], 2, true⟩) :=
  File_read_negative_size ⟨[1, 2, 3, 4, 5], 2, true⟩ (-1) (fun _ => 0) (by decide) (by decide)
    (by decide)

/-! ## Claims on reads beyond the data and on `File.seek` -/

/-- C11 (failing input): a file holding the bytes `1, 2, 3` with the cursor at `0` and
`read(5)`. For a streaming file the binding returns five bytes, the last two of which are the
previous content of the freshly allocated object and not bytes of the file, and the cursor ends
at `3`, not at `0 + 5`; for a resident file it copies five bytes out of a buffer of three and
puts the cursor at `5`. -/
theorem File_read_past_end (uninit : Nat → UInt8) :
    (File.read ⟨[1, 2, 3], 0, false⟩ 5 uninit).1 = .ok [1, 2, 3, uninit 3, uninit 4] ∧
      (File.read ⟨[1, 2, 3], 0, false⟩ 5 uninit).2.Tell = 3 ∧
      (File.read ⟨[1, 2, 3], 0, true⟩ 5 uninit).1 = .error .OutOfBounds ∧
      (File.read ⟨[1, 2, 3], 0, true⟩ 5 uninit).2.Tell = 5 := by
  refine ⟨by rfl, by rfl, by rfl, by rfl⟩

/-- C12 (failing input): a file holding the bytes `1, 2, 3` after `seek(5)`. The seek puts the
cursor at `5`; `read()` with the default size then computes `3 - 5` in `size_t` and returns no
bytes object, for a resident as for a streaming file; `read(4)` on the streaming file returns
four bytes that do not come from the file, and on the resident file copies from beyond the
buffer. -/
theorem File_read_after_seek_past_end (uninit : Nat → UInt8) :
    File.seek ⟨[1, 2, 3], 0, true⟩ 5 File.seek_default_origin = some (5, ⟨[1, 2, 3], 5, true⟩) ∧
      File.GetSize ⟨[1, 2, 3], 5, true⟩ < File.Tell ⟨[1, 2, 3], 5, true⟩ ∧
      (File.read ⟨[1, 2, 3], 5, true⟩ (-1) uninit).1 = .error .NegativeSize ∧
      (File.read ⟨[1, 2, 3], 5, false⟩ (-1) uninit).1 = .error .NegativeAllocation ∧
      (File.read ⟨[1, 2, 3], 5, false⟩ 4 uninit).1 =
        .ok [uninit 0, uninit 1, uninit 2, uninit 3] ∧
      (File.read ⟨[1, 2, 3], 5, true⟩ 4 uninit).1 = .error .OutOfBounds := by
  refine ⟨by rfl, by decide, by rfl, by rfl, by rfl, by rfl⟩

/-- C13 (failing input): a streaming file holding the bytes `7, 8` with the cursor at `1` and
`read(4)`. The underlying `Read` produces one byte and reports `IoError`; the binding ignores
both and returns a bytes object of the requested length `4`. -/
theorem File_read_truncated_is_padded (uninit : Nat → UInt8) :
    (File.Read ⟨[7, 8], 1, false⟩ 4).1 = Status.IoError ∧
      (File.Read ⟨[7, 8], 1, false⟩ 4).2.1 = [8] ∧
      (File.read ⟨[7, 8], 1, false⟩ 4 uninit).1 = .ok [8, uninit 1, uninit 2, uninit 3] := by
  refine ⟨by rfl, by rfl, by rfl⟩

/-- C14: for every File, offset and origin, `File.seek(offset, origin)` returns the value that
`Tell()` returns immediately after the `Seek`, the file afterwards has the same data, size and
residency, and with the origin omitted the seek is the one from `Start`. -/
theorem File_seek_returns_tell (self : File) (offset : Int) (o : Origin) :
    File.seek self offset o.toInt = some ((self.Seek offset o).2.Tell, (self.Seek offset o).2) ∧
      (self.Seek offset o).2.data = self.data ∧
      (self.Seek offset o).2.GetSize = self.GetSize ∧
      (self.Seek offset o).2.resident = self.resident ∧
      File.seek self offset File.seek_default_origin =
        some ((self.Seek offset .Start).2.Tell, (self.Seek offset .Start).2) := by
  have hdata : ∀ o : Origin, (self.Seek offset o).2.data = self.data ∧
      (self.Seek offset o).2.resident = self.resident := by
    intro o
    unfold File.Seek
    dsimp only
    split <;> exact ⟨rfl, rfl⟩
  refine ⟨?_, (hdata o).1, ?_, (hdata o).2, by rfl⟩
  · cases o <;> rfl
  · unfold File.GetSize
    rw [(hdata o).1]

/-! ## Claims on the bindings of `Archive` and on `open_as_bytes` -/

theorem store_into_length (size : Nat) (stored : List UInt8) (uninit : Nat → UInt8) :
    (store_into size stored uninit).length = size := by
  simp [store_into]

theorem store_into_full (stored : List UInt8) (uninit : Nat → UInt8) :
    store_into stored.length stored uninit = stored := by
  apply List.ext_getElem
  · simp [store_into]
  · intro k h1 h2
    simp [store_into, List.getD, List.getElem?_eq_getElem h2]

/-- C15 (failing input): an archive in which every path exists and whose listing of every
directory is `["x.bin"]`, asked for the directory `""`. The binding returns the boolean
`True`, the result of `Exists`, and not the sequence of entry names. -/
theorem Archive_list_directory_returns_bool :
    (Archive_list_directory
        ⟨fun _ => true, fun _ => ["x.bin"], fun _ => none, fun _ => ⟨[], [], false⟩⟩ "").1 =
        .ok (.Bool true) ∧
      (Archive_list_directory
        ⟨fun _ => true, fun _ => ["x.bin"], fun _ => none, fun _ => ⟨[], [], false⟩⟩ "").1 ≠
        .ok (.StrList ["x.bin"]) := by
  refine ⟨by rfl, ?_⟩
  intro h
  cases h

/-- C16: for every archive and path, `Archive.open(path)` never raises: it returns `None`
exactly when `OpenFile(path)` of the archive yields an empty File, and otherwise returns that
File. -/
theorem Archive_open_never_raises (self : ArchiveReaderInterface) (filepath : String) :
    (∃ v, (Archive_open self filepath).1 = .ok v) ∧
      ((Archive_open self filepath).1 = .ok .None ↔ self.OpenFile filepath = none) ∧
      ∀ f, self.OpenFile filepath = some f →
        (Archive_open self filepath).1 = .ok (.FileObj f) := by
  unfold Archive_open
  cases h : self.OpenFile filepath with
  | none =>
    refine ⟨⟨_, rfl⟩, ⟨fun _ => rfl, fun _ => rfl⟩, ?_⟩
    intro f hf
    cases hf
  | some f0 =>
    refine ⟨⟨_, rfl⟩, ⟨?_, ?_⟩, ?_⟩
    · intro hn
      cases hn
    · intro hn
      cases hn
    · intro f hf
      cases hf
      rfl

/-- Witness for C16: an archive whose `OpenFile` yields a resident File of two bytes. -/
theorem Archive_open_never_raises_witness :
    (Archive_open ⟨fun _ => true, fun _ => [], fun _ => some ⟨[1, 2], 0, true⟩,
        fun _ => ⟨[], [], false⟩⟩ "x.bin").1 = .ok (.FileObj ⟨[1, 2], 0, true⟩) :=
  (Archive_open_never_raises ⟨fun _ => true, fun _ => [], fun _ => some ⟨[1, 2], 0, true⟩,
    fun _ => ⟨[], [], false⟩⟩ "x.bin").2.2 ⟨[1, 2], 0, true⟩ rfl

/-- C17 (failing input): an archive whose `OpenFile(path, alloc)` returns a null pointer, be it
without invoking the callback (entry missing) or after one invocation (decoding failed). The
binding then calls `PyErr_SetString` inside the scope of its `py::gil_scoped_release`: the
process is killed and no `IOError("Error reading file ")` is raised. For a non-null result after
one invocation with the size `2` the object of two bytes is returned. -/
theorem Archive_open_as_bytes_null_result_killed (uninit : Nat → UInt8) :
    (Archive_open_as_bytes ⟨fun _ => false, fun _ => [], fun _ => none,
        fun _ => ⟨[], [], false⟩⟩ "missing" uninit).1 = .error .KilledWithoutLock ∧
      (Archive_open_as_bytes ⟨fun _ => true, fun _ => [], fun _ => none,
        fun _ => ⟨[2], [1], false⟩⟩ "broken" uninit).1 = .error .KilledWithoutLock ∧
      (Archive_open_as_bytes ⟨fun _ => false, fun _ => [], fun _ => none,
        fun _ => ⟨[], [], false⟩⟩ "missing" uninit).1 ≠
        .error (.IoError "Error reading file ") ∧
      (Archive_open_as_bytes ⟨fun _ => true, fun _ => [], fun _ => none,
        fun _ => ⟨[2], [1, 2], true⟩⟩ "x.bin" uninit).1 = .ok (.Bytes [1, 2]) := by
  refine ⟨by rfl, by rfl, ?_, by rfl⟩
  intro h
  cases h

/-- C18 (failing input): a name that does not open, and a file whose read falls short of
`GetSize()`. In both cases the module-level `open_as_bytes` calls `PyErr_SetString` inside the
scope of the `py::gil_scoped_release` that spans its body: the process is killed, and neither
`IOError("No such file <path>")` nor `IOError("Error reading file ")` is raised. A file that
opens and reads in full comes back as the bytes object. -/
theorem open_as_bytes_error_paths_killed (uninit : Nat → UInt8) :
    (open_as_bytes (fun _ => none) "missing.bin" uninit).1 = .error .KilledWithoutLock ∧
      (open_as_bytes (fun _ => none) "missing.bin" uninit).1 ≠
        .error (.IoError ("No such file " ++ "missing.bin")) ∧
      (open_as_bytes (fun _ => some ⟨[1, 2, 3], 1, false⟩) "a.bin" uninit).1 =
        .error .KilledWithoutLock ∧
      (open_as_bytes (fun _ => some ⟨[1, 2, 3], 0, false⟩) "a.bin" uninit).1 =
        .ok (.Bytes [1, 2, 3]) := by
  refine ⟨by rfl, ?_, by rfl, by rfl⟩
  intro h
  cases h

/-- C19 (failing input): a file that opens, a file that does not, and an archive entry of two
bytes. The module-level `open_as_bytes` allocates the bytes object, and sets the error for a
missing file, inside the scope of its `py::gil_scoped_release`; the callback of
`Archive.open_as_bytes` allocates without taking the lock; `Archive.open_as_numpy_ubyte` takes
the lock in its callback but sets the error for a null result while the lock is released. -/
theorem gil_released_during_host_calls :
    (open_as_bytes (fun _ => some ⟨[1, 2, 3], 0, false⟩) "a.bin" (fun _ => 0)).2 =
        [.ReleaseGIL, .Blocking, .HostAllocate, .Blocking, .AcquireGIL] ∧
      gil_respected true
        (open_as_bytes (fun _ => some ⟨[1, 2, 3], 0, false⟩) "a.bin" (fun _ => 0)).2 = false ∧
      gil_respected true (open_as_bytes (fun _ => none) "a.bin" (fun _ => 0)).2 = false ∧
      gil_respected true (Archive_open_as_bytes ⟨fun _ => true, fun _ => [], fun _ => none,
        fun _ => ⟨[2], [1, 2], true⟩⟩ "x.bin" (fun _ => 0)).2 = false ∧
      gil_respected true (Archive_open_as_numpy_ubyte_events ⟨fun _ => true, fun _ => [],
        fun _ => none, fun _ => ⟨[2], [1, 2], true⟩⟩ "x.bin" none) = true ∧
      gil_respected true (Archive_open_as_numpy_ubyte_events ⟨fun _ => false, fun _ => [],
        fun _ => none, fun _ => ⟨[], [], false⟩⟩ "x.bin" none) = false := by
  refine ⟨by rfl, by rfl, by rfl, by rfl, by rfl, by rfl⟩

/-- C20: for every zip entry of decompressed size `S` found under `path`,
`OpenFile(path, allocate)` of the zip reader invokes the callback exactly once, with the
argument `S`, stores the content into the block which that invocation returned, so that its
first `S` bytes equal the decompressed content of the entry, and returns a non-null pointer;
through `Archive.open_as_bytes` the content comes back as the bytes object. -/
theorem ZipReader_allocator_protocol (index : List ZipEntry) (path : String) (e : ZipEntry)
    (uninit : Nat → UInt8) (h : index.find? (fun e => e.path == path) = some e) :
    (ZipReader_OpenFileInto index path).alloc_calls = [e.content.length] ∧
      (ZipReader_OpenFileInto index path).result_non_null = true ∧
      (store_into e.content.length (ZipReader_OpenFileInto index path).written uninit).take
        e.content.length = e.content ∧
      ∀ self : ArchiveReaderInterface,
        self.OpenFileInto path = ZipReader_OpenFileInto index path →
        (Archive_open_as_bytes self path uninit).1 = .ok (.Bytes e.content) := by
  have hrun : ZipReader_OpenFileInto index path =
      { alloc_calls := [e.content.length], written := e.content, result_non_null := true } := by
    unfold ZipReader_OpenFileInto
    rw [h]
  rw [hrun]
  refine ⟨rfl, rfl, ?_, ?_⟩
  · rw [store_into_full]
    simp
  · intro self hself
    unfold Archive_open_as_bytes
    rw [hself]
    simp [store_into_full]

/-- Witness for C20: the archive with the single entry `x.bin` holding `1, 2`. -/
theorem ZipReader_allocator_protocol_witness :
    (ZipReader_OpenFileInto [⟨"x.bin", [1, 2]⟩] "x.bin").alloc_calls = [2] ∧
      (ZipReader_OpenFileInto [⟨"x.bin", [1, 2]⟩] "x.bin").result_non_null = true :=
  ⟨(ZipReader_allocator_protocol [⟨"x.bin", [1, 2]⟩] "x.bin" ⟨"x.bin", [1, 2]⟩ (fun _ => 0)
      (by rfl)).1,
    (ZipReader_allocator_protocol [⟨"x.bin", [1, 2]⟩] "x.bin" ⟨"x.bin", [1, 2]⟩ (fun _ => 0)
      (by rfl)).2.1⟩

/-! ## Successful runs of `fix_shape` -/

theorem fix_shape_loop_ok_range (l : List Int) (i : Nat) (st st1 : Locals)
    (h : fix_shape_loop l i st = .ok st1) : InPtrdiffRange l := by
  induction l generalizing i st with
  | nil =>
    intro s hs
    cases hs
  | cons o l ih =>
    rw [fix_shape_loop] at h
    by_cases hr : PTRDIFF_MIN ≤ o ∧ o ≤ PTRDIFF_MAX
    · rw [cast_ptrdiff_t_ok hr] at h
      dsimp only at h
      have hl : InPtrdiffRange l := by
        by_cases hs : o < 1
        · by_cases hm : st.has_minus = true
          · rw [if_pos hs, if_pos hm] at h
            cases h
          · rw [if_pos hs, if_neg hm] at h
            exact ih _ _ h
        · rw [if_neg hs] at h
          exact ih _ _ h
      intro s hs
      rcases List.mem_cons.mp hs with rfl | hs
      · exact hr
      · exact hl s hs
    · rw [cast_ptrdiff_t_error hr] at h
      cases h

theorem fix_shape_ok_range (t : List Int) (n : Nat) (old r : List Nat)
    (h : fix_shape (some t) n old = .ok r) : InPtrdiffRange t := by
  unfold fix_shape at h
  dsimp only at h
  cases hl : fix_shape_loop t 0
      { has_minus := false, mul := 1, minus_id := -1, shape_ := clear old } with
  | error e =>
    rw [hl] at h
    cases h
  | ok st => exact fix_shape_loop_ok_range t 0 _ st hl

theorem wildcard_count_append_cons (pre post : List Int) (w : Int) (hw : w < 1) :
    1 ≤ wildcard_count (pre ++ w :: post) := by
  unfold wildcard_count
  rw [List.countP_append, List.countP_cons_of_pos _ _ (by simpa using hw)]
  omega

theorem wildcard_cases (t : List Int) :
    (∀ s ∈ t, 1 ≤ s) ∨
      (∃ pre w post, t = pre ++ w :: post ∧ w < 1 ∧ (∀ s ∈ pre, 1 ≤ s) ∧ ∀ s ∈ post, 1 ≤ s) ∨
      2 ≤ wildcard_count t := by
  induction t with
  | nil => exact Or.inl (fun s hs => absurd hs (List.not_mem_nil s))
  | cons a t ih =>
    by_cases ha : a < 1
    · have hcnt : wildcard_count (a :: t) = wildcard_count t + 1 := by
        simp [wildcard_count, ha]
      rcases ih with h | ⟨pre, w, post, rfl, hw, _, _⟩ | h
      · exact Or.inr (Or.inl ⟨[], a, t, rfl, ha, fun s hs => absurd hs (List.not_mem_nil s), h⟩)
      · refine Or.inr (Or.inr ?_)
        have := wildcard_count_append_cons pre post w hw
        omega
      · exact Or.inr (Or.inr (by omega))
    · have hcnt : wildcard_count (a :: t) = wildcard_count t := by
        simp [wildcard_count, ha]
      rcases ih with h | ⟨pre, w, post, rfl, hw, hpre, hpost⟩ | h
      · refine Or.inl ?_
        intro s hs
        rcases List.mem_cons.mp hs with rfl | hs
        · omega
        · exact h s hs
      · refine Or.inr (Or.inl ⟨a :: pre, w, post, rfl, hw, ?_, hpost⟩)
        intro s hs
        rcases List.mem_cons.mp hs with rfl | hs
        · omega
        · exact hpre s hs
      · exact Or.inr (Or.inr (by omega))

theorem fix_shape_two_wildcards_aux (t : List Int) (n : Nat) (old : List Nat)
    (hr : InPtrdiffRange t) (h2 : 2 ≤ wildcard_count t) :
    fix_shape (some t) n old = .error .InvalidShape := by
  unfold fix_shape
  simp only [clear]
  rw [fix_shape_loop_invalid t hr 0 _ (by simpa using h2)]

/-- Every successful run of `fix_shape` on a present template is of one of two kinds: the
template has no wildcard and is returned as it is, or it has exactly one wildcard, the wrapped
product of the other entries is a non-zero divisor of the byte count and the quotient takes the
place of the wildcard. -/
theorem fix_shape_ok_cases (t : List Int) (n : Nat) (old r : List Nat)
    (h : fix_shape (some t) n old = .ok r) :
    ((∀ s ∈ t, 1 ≤ s ∧ s ≤ PTRDIFF_MAX) ∧ r = t.map Int.toNat) ∨
      ∃ pre w post, t = pre ++ w :: post ∧ w < 1 ∧ PTRDIFF_MIN ≤ w ∧
        (∀ s ∈ pre, 1 ≤ s ∧ s ≤ PTRDIFF_MAX) ∧ (∀ s ∈ post, 1 ≤ s ∧ s ≤ PTRDIFF_MAX) ∧
        mul_acc 1 (pre ++ post) ≠ 0 ∧ n % mul_acc 1 (pre ++ post) = 0 ∧
        r = pre.map Int.toNat ++ (n / mul_acc 1 (pre ++ post)) :: post.map Int.toNat := by
  have hr := fix_shape_ok_range t n old r h
  rcases wildcard_cases t with hall | ⟨pre, w, post, rfl, hw, hpre, hpost⟩ | h2
  · have ht : ∀ s ∈ t, 1 ≤ s ∧ s ≤ PTRDIFF_MAX := fun s hs => ⟨hall s hs, (hr s hs).2⟩
    rw [fix_shape_no_wildcard t n old ht] at h
    cases h
    exact Or.inl ⟨ht, rfl⟩
  · obtain ⟨h1, h2, hwr, _⟩ := hr.decomposed hpre hpost
    rw [fix_shape_one_wildcard pre post w n old h1 h2 hw hwr] at h
    by_cases hm : mul_acc 1 (pre ++ post) = 0
    · rw [if_pos hm] at h
      cases h
    · rw [if_neg hm] at h
      by_cases hd : n % mul_acc 1 (pre ++ post) = 0
      · rw [if_pos hd] at h
        cases h
        exact Or.inr ⟨pre, w, post, rfl, hw, hwr, h1, h2, hm, hd, rfl⟩
      · rw [if_neg hd] at h
        cases h
  · rw [fix_shape_two_wildcards_aux t n old hr h2] at h
    cases h

theorem prod_map_toNat {l : List Int} (hl : ∀ s ∈ l, 1 ≤ s) :
    (l.map Int.toNat).prod = l.prod.toNat := by
  induction l with
  | nil => simp
  | cons a l ih =>
    have ha : 1 ≤ a := hl a (List.mem_cons_self a l)
    have hl2 : ∀ s ∈ l, 1 ≤ s := fun s hs => hl s (List.mem_cons_of_mem a hs)
    have hp := prod_pos_of_entries hl2
    rw [List.map_cons, List.prod_cons, List.prod_cons, ih hl2,
      toNat_mul_of_nonneg (by omega) (by omega)]

/-! ## Further claims on `fix_shape` -/

/-- C23: for every byte count `n` and every template with exactly one wildcard for which
`fix_shape` succeeds, the product of all entries of the resolved shape equals `n`, provided the
product of the positive entries does not overflow `size_t`. -/
theorem fix_shape_resolved_prod (n : Nat) (t : List Int) (i : Nat) (old r : List Nat)
    (hw : OneWildcardAt t i) (hov : fixed_prod t i < SIZE_T_MOD)
    (hok : fix_shape (some t) n old = .ok r) : r.prod = n := by
  have hr := fix_shape_ok_range t n old r hok
  obtain ⟨pre, w, post, rfl, rfl, hw1, hpre, hpost⟩ := hw.decompose
  obtain ⟨h1, h2, hwr, h3⟩ := hr.decomposed hpre hpost
  rw [fixed_prod_decomposed] at hov
  have hacc := mul_acc_eq 1 (pre ++ post) h3
  have hlt := mul_acc_lt 1 (pre ++ post) (by unfold SIZE_T_MOD; norm_num)
  rw [Nat.mod_eq_of_lt hlt, Nat.one_mul, Nat.mod_eq_of_lt hov] at hacc
  rw [fix_shape_one_wildcard pre post w n old h1 h2 hw1 hwr, hacc] at hok
  have hP : 1 ≤ (pre ++ post).prod := prod_pos_of_entries (fun s hs => (h3 s hs).1)
  have hne : (pre ++ post).prod.toNat ≠ 0 := by omega
  rw [if_neg hne] at hok
  by_cases hd : n % (pre ++ post).prod.toNat = 0
  · rw [if_pos hd] at hok
    cases hok
    have hsplit : (pre ++ post).prod.toNat = pre.prod.toNat * post.prod.toNat := by
      have hp1 := prod_pos_of_entries hpre
      have hp2 := prod_pos_of_entries hpost
      rw [List.prod_append, toNat_mul_of_nonneg (by omega) (by omega)]
    rw [List.prod_append, List.prod_cons, prod_map_toNat hpre, prod_map_toNat hpost]
    have hdvd : (pre ++ post).prod.toNat ∣ n := Nat.dvd_of_mod_eq_zero hd
    calc pre.prod.toNat * (n / (pre ++ post).prod.toNat * post.prod.toNat)
        = (pre.prod.toNat * post.prod.toNat) * (n / (pre ++ post).prod.toNat) := by ring
      _ = (pre ++ post).prod.toNat * (n / (pre ++ post).prod.toNat) := by rw [hsplit]
      _ = n := Nat.mul_div_cancel' hdvd
  · rw [if_neg hd] at hok
    cases hok

/-- Witness for C23: the template `(2, -1, 3)` and `12` bytes resolve to `[2, 2, 3]`. -/
theorem fix_shape_resolved_prod_witness : ([2, 2, 3] : List Nat).prod = 12 :=
  fix_shape_resolved_prod 12 [2, -1, 3] 1 [] [2, 2, 3] (by decide) (by decide) (by rfl)

/-- C24 (failing input): the template `(2 ^ 32, 2 ^ 32, -1)`, which has exactly one wildcard,
with any byte count. The product of the entries `≥ 1`, accumulated modulo `2 ^ 64`, is `0`, and
`size % mul` is evaluated with the divisor `0`. -/
theorem fix_shape_divides_by_zero (n : Nat) (old : List Nat) :
    OneWildcardAt [2 ^ 32, 2 ^ 32, -1] 2 ∧ InPtrdiffRange [2 ^ 32, 2 ^ 32, -1] ∧
      mul_acc 1 [2 ^ 32, 2 ^ 32] = 0 ∧
      fix_shape (some [2 ^ 32, 2 ^ 32, -1]) n old = .error .DivisionByZero := by
  have hm : mul_acc 1 [2 ^ 32, 2 ^ 32] = 0 := by
    norm_num [mul_acc, to_size_t, SIZE_T_MOD]
    decide
  refine ⟨by decide, by decide, hm, ?_⟩
  have h := fix_shape_one_wildcard [2 ^ 32, 2 ^ 32] [] (-1) n old (by decide)
    (fun s hs => absurd hs (List.not_mem_nil s)) (by decide) (by decide)
  rw [List.append_nil, hm, if_pos rfl] at h
  exact h

/-- C25: for every byte count `n` and every present template for which `fix_shape` succeeds,
the resolved shape has exactly as many entries as the template and agrees with the template at
every non-wildcard position. -/
theorem fix_shape_rank_preserved (n : Nat) (t : List Int) (old r : List Nat)
    (hok : fix_shape (some t) n old = .ok r) :
    r.length = t.length ∧
      ∀ (j : Nat) (s : Int), t[j]? = some s → 1 ≤ s → r[j]? = some s.toNat := by
  rcases fix_shape_ok_cases t n old r hok with ⟨_, rfl⟩ |
    ⟨pre, w, post, rfl, hw, _, _, _, _, _, rfl⟩
  · refine ⟨by simp, ?_⟩
    intro j s hj _
    rw [List.getElem?_map, hj]
    rfl
  · have hset : pre.map Int.toNat ++ (n / mul_acc 1 (pre ++ post)) :: post.map Int.toNat =
        ((pre ++ w :: post).map Int.toNat).set pre.length (n / mul_acc 1 (pre ++ post)) := by
      simp
    refine ⟨by simp, ?_⟩
    intro j s hj hs
    have hne : pre.length ≠ j := by
      intro he
      subst he
      have : (pre ++ w :: post)[pre.length]? = some w := by
        rw [List.getElem?_append_right (Nat.le_refl _)]
        simp
      rw [this] at hj
      cases hj
      omega
    rw [hset, List.getElem?_set_ne hne, List.getElem?_map, hj]
    rfl

/-- Witness for C25: the template `(2, -1, 3)` and `12` bytes resolve to `[2, 2, 3]`. -/
theorem fix_shape_rank_preserved_witness :
    ([2, 2, 3] : List Nat).length = ([2, -1, 3] : List Int).length ∧
      ∀ (j : Nat) (s : Int), ([2, -1, 3] : List Int)[j]? = some s → 1 ≤ s →
        ([2, 2, 3] : List Nat)[j]? = some s.toNat :=
  fix_shape_rank_preserved 12 [2, -1, 3] [] [2, 2, 3] (by rfl)

/-- C26: `fix_shape` is idempotent on its results: for every byte count `n < 2 ^ 63` and every
template `t` (absent or present, entries below `2 ^ 63`) for which `fix_shape(t, n)` succeeds
with the shape `r`, `fix_shape(r, n)` also succeeds and returns `r`. -/
theorem fix_shape_idempotent (n : Nat) (t : Option (List Int)) (old old1 r : List Nat)
    (hn : n < 2 ^ 63) (_ht : ∀ l, t = some l → ∀ s ∈ l, s < 2 ^ 63)
    (hok : fix_shape t n old = .ok r) :
    fix_shape (some (r.map Int.ofNat)) n old1 = .ok r := by
  have hone : mul_acc 1 ([] ++ []) = 1 := rfl
  cases t with
  | none =>
    have hr : r = [n] := by
      have h : fix_shape none n old = .ok [n] := rfl
      rw [h] at hok
      cases hok
      rfl
    subst hr
    by_cases h0 : n = 0
    · subst h0
      have h := fix_shape_one_wildcard [] [] 0 0 old1
        (fun s hs => absurd hs (List.not_mem_nil s))
        (fun s hs => absurd hs (List.not_mem_nil s)) (by decide) (by decide)
      rw [hone] at h
      exact h
    · have h := fix_shape_no_wildcard [(n : Int)] n old1 (by
        intro s hs
        rw [List.mem_singleton] at hs
        subst hs
        unfold PTRDIFF_MAX
        omega)
      simpa using h
  | some l =>
    rcases fix_shape_ok_cases l n old r hok with ⟨hl, rfl⟩ |
      ⟨pre, w, post, rfl, _, _, hpre, hpost, hm, hd, rfl⟩
    · rw [map_toNat_cast (fun s hs => (hl s hs).1)]
      exact fix_shape_no_wildcard l n old1 hl
    · have hmap : (pre.map Int.toNat ++ (n / mul_acc 1 (pre ++ post)) :: post.map Int.toNat).map
          Int.ofNat = pre ++ Int.ofNat (n / mul_acc 1 (pre ++ post)) :: post := by
        rw [List.map_append, List.map_cons, map_toNat_cast (fun s hs => (hpre s hs).1),
          map_toNat_cast (fun s hs => (hpost s hs).1)]
      rw [hmap]
      by_cases hv : n / mul_acc 1 (pre ++ post) = 0
      · have h := fix_shape_one_wildcard pre post (Int.ofNat (n / mul_acc 1 (pre ++ post))) n
          old1 hpre hpost (by rw [hv]; decide) (by rw [hv]; decide)
        rw [if_neg hm, if_pos hd] at h
        exact h
      · have hle : n / mul_acc 1 (pre ++ post) ≤ n := Nat.div_le_self _ _
        have h := fix_shape_no_wildcard
          (pre ++ Int.ofNat (n / mul_acc 1 (pre ++ post)) :: post) n old1 (by
            intro s hs
            rcases List.mem_append.mp hs with h1 | h1
            · exact hpre s h1
            · rcases List.mem_cons.mp h1 with rfl | h2
              · have h3 : (1 : Int) ≤ ((n / mul_acc 1 (pre ++ post) : Nat) : Int) := by
                  exact_mod_cast Nat.one_le_iff_ne_zero.mpr hv
                have h4 : ((n / mul_acc 1 (pre ++ post) : Nat) : Int) ≤ (n : Int) := by
                  exact_mod_cast hle
                have h5 : (n : Int) < 2 ^ 63 := by exact_mod_cast hn
                refine ⟨h3, ?_⟩
                unfold PTRDIFF_MAX
                exact le_trans h4 (by omega)
              · exact hpost s h2)
        rw [h, List.map_append, List.map_cons]
        rfl

/-- Witness for C26: the template `(2, -1, 3)` and `12` bytes resolve to `[2, 2, 3]`. -/
theorem fix_shape_idempotent_witness :
    fix_shape (some (([2, 2, 3] : List Nat).map Int.ofNat)) 12 [] = .ok [2, 2, 3] :=
  fix_shape_idempotent 12 (some [2, -1, 3]) [] [] [2, 2, 3] (by decide)
    (by
      intro l hl s hs
      cases hl
      revert s
      decide)
    (by rfl)

/-- C27 (amended): for every byte count `n` (including `n = 0`), `fix_shape` applied to the
one-entry template consisting of a single wildcard with a value from `-2 ^ 63` to `0` succeeds
and returns `[n]`, the same result as for an absent template. -/
theorem fix_shape_single_wildcard (n : Nat) (w : Int) (old : List Nat) (hw : w < 1)
    (hwr : PTRDIFF_MIN ≤ w) :
    fix_shape (some [w]) n old = .ok [n] ∧ fix_shape (some [w]) n old = fix_shape none n old := by
  have h := fix_shape_one_wildcard [] [] w n old
    (fun s hs => absurd hs (List.not_mem_nil s))
    (fun s hs => absurd hs (List.not_mem_nil s)) hw hwr
  have hone : mul_acc 1 ([] ++ []) = 1 := rfl
  rw [hone, if_neg (by decide), if_pos (Nat.mod_one n), Nat.div_one] at h
  have h2 : fix_shape (some [w]) n old = .ok [n] := h
  exact ⟨h2, by rw [h2]; rfl⟩

/-- Witness for C27 (amended): the template `(-1,)` and `0` bytes. -/
theorem fix_shape_single_wildcard_witness :
    fix_shape (some [-1]) 0 [] = .ok [0] ∧ fix_shape (some [-1]) 0 [] = fix_shape none 0 [] :=
  fix_shape_single_wildcard 0 (-1) [] (by decide) (by decide)

/-- C27 (as stated) fails: the one-entry template `(-2 ^ 63 - 1,)` consists of a single
wildcard, but with `4` bytes `fix_shape` ends with the conversion error, while the absent
template resolves to `[4]`. -/
theorem fix_shape_single_wildcard_counterexample :
    (-2 ^ 63 - 1 : Int) < 1 ∧ fix_shape (some [-2 ^ 63 - 1]) 4 [] = .error .CastError ∧
      fix_shape none 4 [] = .ok [4] := by
  refine ⟨by decide, by rfl, by rfl⟩

/-! ## Consecutive reads of a resident file -/

theorem File_read_resident_in_bounds (data : List UInt8) (cursor size : Nat)
    (uninit : Nat → UInt8) (hb : cursor + size ≤ data.length) (hsz : data.length < 2 ^ 63) :
    File.read ⟨data, cursor, true⟩ (size : Int) uninit =
      (.ok ((data.drop cursor).take size), ⟨data, cursor + size, true⟩) := by
  have hnn : ¬ ((size : Int) < 0) := by omega
  have hs : to_ptrdiff_t ((((cursor : Nat) : Int) + (size : Int)) % 2 ^ 64) =
      ((cursor + size : Nat) : Int) := by
    rw [to_ptrdiff_t_of_small (by omega) (by omega)]
    omega
  have hge : ¬ ((0 : Int) + ((cursor + size : Nat) : Int) < 0) := by omega
  simp only [File.read, File.Tell, File.GetSize, File.GetDataPointer, if_neg hnn, hs, if_true,
    Int.toNat_ofNat, File.Seek, if_neg hge]
  rw [if_pos hb]
  simp
  omega

/-- C28: for every resident File with cursor `p` and all `a, b ≥ 0` with
`p + a + b ≤ GetSize()`, `File.read(a)` followed by `File.read(b)` returns two byte strings
whose concatenation equals what a single `File.read(a + b)` from the cursor `p` returns, and
both sequences leave the cursor at `p + a + b`. The hypothesis `hsz` is the bound that the size
of every buffer in memory obeys (`PTRDIFF_MAX`). -/
theorem File_read_split (self : File) (a b : Nat) (u1 u2 u3 : Nat → UInt8)
    (hres : self.resident = true) (hsz : self.GetSize < 2 ^ 63)
    (hbound : self.Tell + a + b ≤ self.GetSize) :
    ∃ x y, (self.read (a : Int) u1).1 = .ok x ∧
      ((self.read (a : Int) u1).2.read (b : Int) u2).1 = .ok y ∧
      (self.read ((a : Int) + (b : Int)) u3).1 = .ok (x ++ y) ∧
      ((self.read (a : Int) u1).2.read (b : Int) u2).2.Tell = self.Tell + a + b ∧
      (self.read ((a : Int) + (b : Int)) u3).2.Tell = self.Tell + a + b := by
  obtain ⟨data, cursor, resident⟩ := self
  simp only [File.Tell, File.GetSize] at hsz hbound
  dsimp only at hres
  subst hres
  have hab : ((a : Int) + (b : Int)) = ((a + b : Nat) : Int) := by push_cast; rfl
  rw [hab, File_read_resident_in_bounds data cursor a u1 (by omega) hsz,
    File_read_resident_in_bounds data (cursor + a) b u2 (by omega) hsz,
    File_read_resident_in_bounds data cursor (a + b) u3 (by omega) hsz]
  refine ⟨_, _, rfl, rfl, ?_, rfl, ?_⟩
  · dsimp only
    rw [List.take_add, List.drop_drop]
  · simp only [File.Tell]
    omega

/-- Witness for C28: a resident file of five bytes read from offset `1` in pieces of
`2` and `1` bytes. -/
theorem File_read_split_witness :
    ∃ x y, (File.read ⟨[1, 2, 3, 4, 5], 1, true⟩ ((2 : Nat) : Int) (fun _ => 0)).1 = .ok x ∧
      ((File.read ⟨[1, 2, 3, 4, 5], 1, true⟩ ((2 : Nat) : Int) (fun _ => 0)).2.read
        ((1 : Nat) : Int) (fun _ => 0)).1 = .ok y ∧
      (File.read ⟨[1, 2, 3, 4, 5], 1, true⟩ (((2 : Nat) : Int) + ((1 : Nat) : Int))
        (fun _ => 0)).1 = .ok (x ++ y) ∧
      ((File.read ⟨[1, 2, 3, 4, 5], 1, true⟩ ((2 : Nat) : Int) (fun _ => 0)).2.read
        ((1 : Nat) : Int) (fun _ => 0)).2.Tell = File.Tell ⟨[1, 2, 3, 4, 5], 1, true⟩ + 2 + 1 ∧
      (File.read ⟨[1, 2, 3, 4, 5], 1, true⟩ (((2 : Nat) : Int) + ((1 : Nat) : Int))
        (fun _ => 0)).2.Tell = File.Tell ⟨[1, 2, 3, 4, 5], 1, true⟩ + 2 + 1 :=
  File_read_split ⟨[1, 2, 3, 4, 5], 1, true⟩ 2 1 (fun _ => 0) (fun _ => 0) (fun _ => 0) rfl
    (by decide) (by decide)

/-! ## Claims on `File.seek`, `FileSystem.open`, `Archive.exists` and `open_zip_archive` -/

theorem File_Seek_negative (self : File) (offset : Int) (o : Origin)
    (h : self.seek_target offset o < 0) : self.Seek offset o = (.InvalidArgument, self) := by
  cases o <;> simp only [File.seek_target] at h <;> simp only [File.Seek, if_pos h]

/-- C22 (amended): for every File, a seek whose origin computation gives a negative absolute
position is refused by the underlying `Seek` with the status `InvalidArgument` and leaves the
file as it was; the binding `File.seek` drops that status, raises nothing and returns the
unchanged cursor position. -/
theorem File_seek_negative_position (self : File) (offset : Int) (o : Origin)
    (h : self.seek_target offset o < 0) :
    (self.Seek offset o).1 = Status.InvalidArgument ∧
      File.seek self offset o.toInt = some (self.Tell, self) := by
  have hS := File_Seek_negative self offset o h
  refine ⟨by rw [hS], ?_⟩
  have hseek : File.seek self offset o.toInt =
      some ((self.Seek offset o).2.Tell, (self.Seek offset o).2) := by
    cases o <;> rfl
  rw [hseek, hS]

/-- Witness for C22 (amended): a file of three bytes and `seek(-1)` from the start. -/
theorem File_seek_negative_position_witness :
    (File.Seek ⟨[1, 2, 3], 0, true⟩ (-1) Origin.Start).1 = Status.InvalidArgument ∧
      File.seek ⟨[1, 2, 3], 0, true⟩ (-1) Origin.Start.toInt =
        some (File.Tell ⟨[1, 2, 3], 0, true⟩, ⟨[1, 2, 3], 0, true⟩) :=
  File_seek_negative_position ⟨[1, 2, 3], 0, true⟩ (-1) Origin.Start (by decide)

/-- C22 (as stated) fails: for a file of three bytes, `seek(-1)` from the start computes the
absolute position `-1`, and the binding returns the position `0` instead of failing. -/
theorem File_seek_negative_position_counterexample :
    File.seek_target ⟨[1, 2, 3], 0, true⟩ (-1) Origin.Start < 0 ∧
      File.seek ⟨[1, 2, 3], 0, true⟩ (-1) File.seek_default_origin =
        some (0, ⟨[1, 2, 3], 0, true⟩) := by
  refine ⟨by decide, by rfl⟩

/-- C29: for every archive and path, `Archive.list_directory(path)` returns exactly the value
that `Archive.exists(path)` returns: both bindings return the boolean of `Exists` of the archive
and perform nothing else. -/
theorem Archive_list_directory_eq_exists (self : ArchiveReaderInterface) (filepath : String) :
    Archive_list_directory self filepath = Archive_exists self filepath ∧
      Archive_list_directory self filepath = (.ok (.Bool (self.Exists filepath)), []) ∧
      Archive_exists self filepath = (.ok (.Bool (self.Exists filepath)), []) :=
  ⟨rfl, rfl, rfl⟩

/-- C30: for every filename, `open_zip_archive(filename)` returns a reader object and never
fails: the File that `FileSystem.Open` yields, empty or not, is handed to `OpenArchive`, whose
status is dropped, and the reader is returned whatever that status is. -/
theorem open_zip_archive_never_fails (disk : String → String → Mode → Option File)
    (to_location : String → Location)
    (OpenArchive : ZipReader → Option File → Status × ZipReader) (filename : String) :
    (open_zip_archive disk to_location OpenArchive filename).1 =
      .ok (OpenArchive { index := none }
        (FileSystem.init.Open disk (to_location filename) Mode.kRead).1).2 := by
  rfl

/-- C21 (amended): for every two search paths `A` and `B` with `A` the most recently pushed,
and every relative name that does not fall under a mounted prefix and can be opened under both,
`FileSystem.open` returns the file found under `A`. -/
theorem FileSystem_open_search_path_precedence (disk : String → String → Mode → Option File)
    (fs : FileSystem) (A B : String) (location : Location) (mode : Mode) (fa fb : File)
    (hrel : location.kind = PathType.RelativePath)
    (hmount : fs.mounted location.path = none) (_hB : B ∈ fs.search_paths)
    (hA : disk A location.path mode = some fa) (_hfb : disk B location.path mode = some fb) :
    (FileSystem_open disk (fs.PushSearchPath A) location mode).1 = .ok (.FileObj fa) := by
  simp [FileSystem_open, FileSystem.Open, FileSystem.PushSearchPath, hmount, hrel,
    List.findSome?_cons, hA]

/-- Witness for C21 (amended): the search paths `B` then `A` are pushed on a new FileSystem;
every name opens as a streaming file under `A` and as a resident one elsewhere. -/
theorem FileSystem_open_search_path_precedence_witness :
    (FileSystem_open (fun root _ _ => if root = "A" then some ⟨[], 0, false⟩
        else some ⟨[], 0, true⟩)
      ((FileSystem.init.PushSearchPath "B").PushSearchPath "A") ⟨"x.bin", .RelativePath⟩
      Mode.kRead).1 = .ok (.FileObj ⟨[], 0, false⟩) :=
  FileSystem_open_search_path_precedence
    (fun root _ _ => if root = "A" then some ⟨[], 0, false⟩ else some ⟨[], 0, true⟩)
    (FileSystem.init.PushSearchPath "B") "A" "B" ⟨"x.bin", .RelativePath⟩ Mode.kRead
    ⟨[], 0, false⟩ ⟨[], 0, true⟩ rfl rfl (by simp [FileSystem.PushSearchPath, FileSystem.init])
    (by rfl) (by rfl)

/-- C21 (as stated) fails: with an archive mounted over the name, `FileSystem.open` returns the
File that the archive yields, here a resident one, although the name opens under both search
paths as a streaming file. -/
theorem FileSystem_open_search_path_precedence_counterexample :
    (FileSystem_open (fun _ _ _ => some ⟨[], 0, false⟩)
      { search_paths := ["A", "B"],
        mounted := fun _ => some ⟨fun _ => true, fun _ => [], fun _ => some ⟨[], 0, true⟩,
          fun _ => ⟨[], [], false⟩⟩ }
      ⟨"x.bin", .RelativePath⟩ Mode.kRead).1 = .ok (.FileObj ⟨[], 0, true⟩) ∧
      (PyObj.FileObj ⟨[], 0, true⟩ ≠ PyObj.FileObj ⟨[], 0, false⟩) := by
  refine ⟨by rfl, ?_⟩
  intro h
  cases h

end DareBlopy
